import Mathlib

/-!
Verification development for the WebSocket hub / real-time routing subsystem
of the mms-backend repository (packages `websocket`: hub.go, client.go,
handler.go).

Shallow embedding conventions:
* `uuid.UUID` is modelled as `Nat`, with `uuid.Nil = 0`.
* Go maps are modelled as association lists with distinct keys
  (`lookupA` / `insertA` / `eraseA` give map read / assign / delete).
* A `*websocket.Client` pointer is modelled as a `ClientId` into a heap
  `conns : List (ClientId × Client)`; the Hub's `clients` map stores these
  ids.  Closing a client's `Send` channel mutates the heap object
  (`SendClosed := true`), which is observable even after the client left
  the registry — this mirrors Go pointer semantics.
* A buffered channel `chan []byte` of capacity `SendCap` is modelled as the
  FIFO list `Send`; the Go `select { case ch <- x: default: ... }` succeeds
  exactly when `Send.length < SendCap`.
* `json.Marshal` / `json.Unmarshal` of the `Message` envelope are modelled
  as the identity on `Message` (they never fail on the envelopes the hub
  builds), so byte slices in queues are represented by the decoded message.
-/

/-- `uuid.UUID`, modelled as a natural number. -/
abbrev UUID := Nat

/-- `uuid.Nil` (the zero UUID). -/
def uuidNil : UUID := 0

/-- Heap address of a `*Client` object. -/
abbrev ClientId := Nat

/-- The `Message` wire envelope (client.go).  The free-form `Data` map is
modelled by the two keys the hub actually writes (`user_id`, `username`). -/
structure Message where
  type : String := ""
  SenderID : UUID := 0
  ReceiverID : UUID := 0
  GroupID : UUID := 0
  Content : String := ""
  DataUserID : Option UUID := none
  DataUsername : Option String := none
  Timestamp : Nat := 0
deriving DecidableEq, Repr

/-- The `Client` struct (client.go): authenticated identity plus the
bounded outbound queue (`Send chan []byte`, capacity `SendCap`), and
whether that channel has been closed. -/
structure Client where
  UserID : UUID
  Username : String := ""
  Send : List Message := []
  SendCap : Nat := 256
  SendClosed : Bool := false
deriving DecidableEq, Repr

/-- The `Hub` struct (hub.go) together with the heap of connection
objects.  `clients` is `map[uuid.UUID]*Client` (values are heap ids),
`groups` is `map[uuid.UUID][]uuid.UUID`. -/
structure Hub where
  conns : List (ClientId × Client) := []
  clients : List (UUID × ClientId) := []
  groups : List (UUID × List UUID) := []
deriving DecidableEq, Repr

/-- Map read: first entry with the given key. -/
def lookupA {α : Type} : List (UUID × α) → UUID → Option α
  | [], _ => none
  | (k, v) :: rest, k2 => if k = k2 then some v else lookupA rest k2

/-- Map assign: replace the entry with the given key, or append one. -/
def insertA {α : Type} : List (UUID × α) → UUID → α → List (UUID × α)
  | [], k, v => [(k, v)]
  | (k2, v2) :: rest, k, v =>
      if k2 = k then (k, v) :: rest else (k2, v2) :: insertA rest k v

/-- Map delete: drop the entry with the given key (if any). -/
def eraseA {α : Type} : List (UUID × α) → UUID → List (UUID × α)
  | [], _ => []
  | (k2, v2) :: rest, k =>
      if k2 = k then rest else (k2, v2) :: eraseA rest k

theorem lookupA_insertA_self {α : Type} (l : List (UUID × α)) (k : UUID) (v : α) :
    lookupA (insertA l k v) k = some v := by
  induction l with
  | nil => simp [insertA, lookupA]
  | cons p rest ih =>
      obtain ⟨k2, v2⟩ := p
      by_cases h : k2 = k
      · simp [insertA, h, lookupA]
      · simp [insertA, h, lookupA, ih]

theorem lookupA_insertA_ne {α : Type} (l : List (UUID × α)) (k k' : UUID) (v : α)
    (h : k' ≠ k) : lookupA (insertA l k v) k' = lookupA l k' := by
  induction l with
  | nil => simp [insertA, lookupA, Ne.symm h]
  | cons p rest ih =>
      obtain ⟨k2, v2⟩ := p
      by_cases h2 : k2 = k
      · subst h2
        simp [insertA, lookupA, Ne.symm h]
      · simp only [insertA, if_neg h2, lookupA, ih]

theorem lookupA_eraseA_ne {α : Type} (l : List (UUID × α)) (k k' : UUID)
    (h : k' ≠ k) : lookupA (eraseA l k) k' = lookupA l k' := by
  induction l with
  | nil => simp [eraseA]
  | cons p rest ih =>
      obtain ⟨k2, v2⟩ := p
      by_cases h2 : k2 = k
      · subst h2
        simp [eraseA, lookupA, Ne.symm h]
      · simp only [eraseA, if_neg h2, lookupA, ih]

/-- Keys of an association list. -/
def keysA {α : Type} (l : List (UUID × α)) : List UUID := l.map Prod.fst

theorem keysA_cons {α : Type} (p : UUID × α) (l : List (UUID × α)) :
    keysA (p :: l) = p.1 :: keysA l := rfl

theorem lookupA_eq_none_of_not_mem_keys {α : Type} (l : List (UUID × α)) (k : UUID)
    (h : k ∉ keysA l) : lookupA l k = none := by
  induction l with
  | nil => simp [lookupA]
  | cons p rest ih =>
      obtain ⟨k2, v2⟩ := p
      rw [keysA_cons, List.mem_cons] at h
      push_neg at h
      simp [lookupA, Ne.symm h.1, ih h.2]

theorem lookupA_eraseA_self {α : Type} (l : List (UUID × α)) (k : UUID)
    (h : (keysA l).Nodup) : lookupA (eraseA l k) k = none := by
  induction l with
  | nil => simp [eraseA, lookupA]
  | cons p rest ih =>
      obtain ⟨k2, v2⟩ := p
      rw [keysA_cons, List.nodup_cons] at h
      by_cases h2 : k2 = k
      · subst h2
        simpa [eraseA] using lookupA_eq_none_of_not_mem_keys rest k2 h.1
      · simp [eraseA, h2, lookupA, ih h.2]

theorem mem_of_lookupA_eq_some {α : Type} (l : List (UUID × α)) (k : UUID) (v : α)
    (h : lookupA l k = some v) : (k, v) ∈ l := by
  induction l with
  | nil => simp [lookupA] at h
  | cons p rest ih =>
      obtain ⟨k2, v2⟩ := p
      rw [lookupA] at h
      by_cases h2 : k2 = k
      · rw [if_pos h2] at h
        have hv : v2 = v := by injection h
        subst hv
        subst h2
        exact List.mem_cons_self _ _
      · rw [if_neg h2] at h
        exact List.mem_cons_of_mem _ (ih h)

theorem mem_insertA {α : Type} (l : List (UUID × α)) (k : UUID) (v : α)
    (p : UUID × α) (h : p ∈ insertA l k v) : p = (k, v) ∨ p ∈ l := by
  induction l with
  | nil =>
      rw [insertA] at h
      exact Or.inl (by simpa using h)
  | cons q rest ih =>
      obtain ⟨k2, v2⟩ := q
      by_cases h2 : k2 = k
      · rw [insertA, if_pos h2, List.mem_cons] at h
        rcases h with h | h
        · exact Or.inl h
        · exact Or.inr (List.mem_cons_of_mem _ h)
      · rw [insertA, if_neg h2, List.mem_cons] at h
        rcases h with h | h
        · exact Or.inr (by simp [h])
        · rcases ih h with h | h
          · exact Or.inl h
          · exact Or.inr (List.mem_cons_of_mem _ h)

theorem mem_eraseA {α : Type} (l : List (UUID × α)) (k : UUID)
    (p : UUID × α) (h : p ∈ eraseA l k) : p ∈ l := by
  induction l with
  | nil =>
      rw [eraseA] at h
      exact absurd h (List.not_mem_nil p)
  | cons q rest ih =>
      obtain ⟨k2, v2⟩ := q
      by_cases h2 : k2 = k
      · rw [eraseA, if_pos h2] at h
        exact List.mem_cons_of_mem _ h
      · rw [eraseA, if_neg h2, List.mem_cons] at h
        rcases h with h | h
        · simp [h]
        · exact List.mem_cons_of_mem _ (ih h)

theorem mem_eraseA_of_ne {α : Type} (l : List (UUID × α)) (k : UUID)
    (p : UUID × α) (hp : p ∈ l) (hne : p.1 ≠ k) : p ∈ eraseA l k := by
  induction l with
  | nil => exact absurd hp (List.not_mem_nil p)
  | cons q rest ih =>
      obtain ⟨k2, v2⟩ := q
      rcases List.mem_cons.mp hp with h | h
      · have h2 : k2 ≠ k := by
          rw [h] at hne
          exact hne
        rw [eraseA, if_neg h2, h]
        exact List.mem_cons_self _ _
      · by_cases h2 : k2 = k
        · rw [eraseA, if_pos h2]
          exact h
        · rw [eraseA, if_neg h2]
          exact List.mem_cons_of_mem _ (ih h)

theorem keysA_eraseA_sublist {α : Type} (l : List (UUID × α)) (k : UUID) :
    List.Sublist (keysA (eraseA l k)) (keysA l) := by
  induction l with
  | nil => simp [eraseA, keysA]
  | cons q rest ih =>
      obtain ⟨k2, v2⟩ := q
      by_cases h2 : k2 = k
      · rw [eraseA, if_pos h2, keysA_cons]
        exact List.Sublist.cons _ (List.Sublist.refl _)
      · rw [eraseA, if_neg h2, keysA_cons, keysA_cons]
        exact List.Sublist.cons₂ _ ih

theorem keysA_eraseA_nodup {α : Type} (l : List (UUID × α)) (k : UUID)
    (h : (keysA l).Nodup) : (keysA (eraseA l k)).Nodup :=
  (keysA_eraseA_sublist l k).nodup h

theorem mem_keysA_insertA {α : Type} (l : List (UUID × α)) (k : UUID) (v : α)
    (x : UUID) (h : x ∈ keysA (insertA l k v)) : x = k ∨ x ∈ keysA l := by
  rw [keysA, List.mem_map] at h
  obtain ⟨p, hp, hpk⟩ := h
  rcases mem_insertA l k v p hp with h3 | h3
  · subst h3
    exact Or.inl hpk.symm
  · right
    rw [keysA, List.mem_map]
    exact ⟨p, h3, hpk⟩

theorem keysA_insertA_nodup {α : Type} (l : List (UUID × α)) (k : UUID) (v : α)
    (h : (keysA l).Nodup) : (keysA (insertA l k v)).Nodup := by
  induction l with
  | nil => simp [insertA, keysA]
  | cons q rest ih =>
      obtain ⟨k2, v2⟩ := q
      rw [keysA_cons, List.nodup_cons] at h
      by_cases h2 : k2 = k
      · subst h2
        rw [insertA, if_pos rfl, keysA_cons, List.nodup_cons]
        exact ⟨h.1, h.2⟩
      · rw [insertA, if_neg h2, keysA_cons, List.nodup_cons]
        refine ⟨fun hm => ?_, ih h.2⟩
        rcases mem_keysA_insertA rest k v k2 hm with h3 | h3
        · exact h2 h3
        · exact h.1 h3

theorem insertA_self_eq {α : Type} (l : List (UUID × α)) (k : UUID) (v : α)
    (h : lookupA l k = some v) : insertA l k v = l := by
  induction l with
  | nil => simp [lookupA] at h
  | cons q rest ih =>
      obtain ⟨k2, v2⟩ := q
      rw [lookupA] at h
      by_cases h2 : k2 = k
      · rw [if_pos h2] at h
        have hv : v2 = v := by injection h
        subst hv
        subst h2
        rw [insertA, if_pos rfl]
      · rw [if_neg h2] at h
        rw [insertA, if_neg h2, ih h]

theorem eraseA_insertA_of_lookup_none {α : Type} (l : List (UUID × α)) (k : UUID) (v : α)
    (h : lookupA l k = none) : eraseA (insertA l k v) k = l := by
  induction l with
  | nil => simp [insertA, eraseA]
  | cons q rest ih =>
      obtain ⟨k2, v2⟩ := q
      rw [lookupA] at h
      by_cases h2 : k2 = k
      · rw [if_pos h2] at h
        simp at h
      · rw [if_neg h2] at h
        rw [insertA, if_neg h2, eraseA, if_neg h2, ih h]

/-! ## Hub operations (hub.go) -/

/-- `NewHub()` (hub.go): all maps empty; and no connection objects exist yet. -/
def NewHub : Hub := { conns := [], clients := [], groups := [] }

/-- One step of the `range h.clients` loop body of `BroadcastToAll` (hub.go):
`select { case client.Send <- message: default: close(client.Send);
delete(h.clients, client.UserID) }`, applied to every registry entry.
Returns the updated heap and the surviving registry.  (Registered entries
satisfy `key = client.UserID` by construction — the register case stores
`client` under `client.UserID` — so deleting the current entry is the
`delete(h.clients, client.UserID)` of the source.) -/
def broadcastAux (conns : List (ClientId × Client)) :
    List (UUID × ClientId) → Message →
    List (ClientId × Client) × List (UUID × ClientId)
  | [], _ => (conns, [])
  | (u, cid) :: rest, m =>
      match lookupA conns cid with
      | none =>
          let r := broadcastAux conns rest m
          (r.1, (u, cid) :: r.2)
      | some c =>
          if c.Send.length < c.SendCap then
            let r := broadcastAux
              (insertA conns cid { c with Send := c.Send ++ [m] }) rest m
            (r.1, (u, cid) :: r.2)
          else
            broadcastAux (insertA conns cid { c with SendClosed := true }) rest m

/-- `Hub.BroadcastToAll(message)` (hub.go). -/
def BroadcastToAll (h : Hub) (m : Message) : Hub :=
  let r := broadcastAux h.conns h.clients m
  { h with conns := r.1, clients := r.2 }

/-- `Hub.SendToUser(userID, message)` (hub.go): look up the receiver; if
absent, log and return; marshal (always succeeds); then
`select { case client.Send <- data: default: close(client.Send);
delete(h.clients, userID) }`. -/
def SendToUser (h : Hub) (userID : UUID) (m : Message) : Hub :=
  match lookupA h.clients userID with
  | none => h
  | some cid =>
      match lookupA h.conns cid with
      | none => h
      | some c =>
          if c.Send.length < c.SendCap then
            { h with conns := insertA h.conns cid { c with Send := c.Send ++ [m] } }
          else
            { h with conns := insertA h.conns cid { c with SendClosed := true },
                     clients := eraseA h.clients userID }

/-- The `range members` loop of `Hub.BroadcastToGroup` (hub.go):
`if client, ok := h.clients[memberID]; ok { select { case client.Send <- data:
default: close(client.Send); delete(h.clients, memberID) } }`. -/
def groupSendAux (conns : List (ClientId × Client))
    (clients : List (UUID × ClientId)) :
    List UUID → Message →
    List (ClientId × Client) × List (UUID × ClientId)
  | [], _ => (conns, clients)
  | u :: rest, m =>
      match lookupA clients u with
      | none => groupSendAux conns clients rest m
      | some cid =>
          match lookupA conns cid with
          | none => groupSendAux conns clients rest m
          | some c =>
              if c.Send.length < c.SendCap then
                groupSendAux (insertA conns cid { c with Send := c.Send ++ [m] })
                  clients rest m
              else
                groupSendAux (insertA conns cid { c with SendClosed := true })
                  (eraseA clients u) rest m

/-- `Hub.BroadcastToGroup(groupID, message)` (hub.go): members are read from
the `groups` cache only; a missing group logs and returns (the authoritative
store is never consulted); marshal always succeeds. -/
def BroadcastToGroup (h : Hub) (groupID : UUID) (m : Message) : Hub :=
  match lookupA h.groups groupID with
  | none => h
  | some members =>
      let r := groupSendAux h.conns h.clients members m
      { h with conns := r.1, clients := r.2 }

/-- `Hub.AddUserToGroup(groupID, userID)` (hub.go). -/
def AddUserToGroup (h : Hub) (groupID userID : UUID) : Hub :=
  match lookupA h.groups groupID with
  | some members =>
      if userID ∈ members then h
      else { h with groups := insertA h.groups groupID (members ++ [userID]) }
  | none =>
      { h with groups := insertA h.groups groupID [userID] }

/-- `Hub.RemoveUserFromGroup(groupID, userID)` (hub.go). -/
def RemoveUserFromGroup (h : Hub) (groupID userID : UUID) : Hub :=
  match lookupA h.groups groupID with
  | some members =>
      let newMembers := members.filter (fun idv => idv != userID)
      if newMembers.length > 0 then
        { h with groups := insertA h.groups groupID newMembers }
      else
        { h with groups := eraseA h.groups groupID }
  | none => h

/-- The `user_joined` event built in the register case of `Hub.Run`. -/
def userJoinedMsg (c : Client) : Message :=
  { type := "user_joined", DataUserID := some c.UserID,
    DataUsername := some c.Username }

/-- The `user_left` event built in the unregister case of `Hub.Run`. -/
def userLeftMsg (c : Client) : Message :=
  { type := "user_left", DataUserID := some c.UserID,
    DataUsername := some c.Username }

/-- The `case client := <-h.register` branch of `Hub.Run` (hub.go):
`h.clients[client.UserID] = client`, then marshal the `user_joined` event
(always succeeds) and `h.BroadcastToAll(data)`. -/
def registerClient (h : Hub) (cid : ClientId) : Hub :=
  match lookupA h.conns cid with
  | none => h
  | some c =>
      BroadcastToAll
        { h with clients := insertA h.clients c.UserID cid }
        (userJoinedMsg c)

/-- The `case client := <-h.unregister` branch of `Hub.Run` (hub.go):
`if _, ok := h.clients[client.UserID]; ok { delete(h.clients, client.UserID);
close(client.Send); ... h.BroadcastToAll(data) }` — note the presence check
is keyed on the user ID, not on the client pointer. -/
def unregisterClient (h : Hub) (cid : ClientId) : Hub :=
  match lookupA h.conns cid with
  | none => h
  | some c =>
      match lookupA h.clients c.UserID with
      | none => h
      | some _ =>
          BroadcastToAll
            { h with clients := eraseA h.clients c.UserID,
                     conns := insertA h.conns cid { c with SendClosed := true } }
            (userLeftMsg c)

/-- The `case message := <-h.directMessage` branch of `Hub.Run` (hub.go). -/
def routeDirect (h : Hub) (m : Message) : Hub :=
  if m.ReceiverID ≠ uuidNil then SendToUser h m.ReceiverID m else h

/-- The `case message := <-h.groupMessage` branch of `Hub.Run` (hub.go). -/
def routeGroup (h : Hub) (m : Message) : Hub :=
  if m.GroupID ≠ uuidNil then BroadcastToGroup h m.GroupID m else h

/-- `Hub.IsUserOnline(userID)` (hub.go). -/
def IsUserOnline (h : Hub) (userID : UUID) : Bool :=
  (lookupA h.clients userID).isSome

/-! ## Read pump dispatch (client.go) -/

/-- Where one successfully decoded inbound frame goes: onto one of the hub's
channels (`directMessage` / `groupMessage` / `broadcast`), straight back to
this connection's own `Send` queue, or dropped. -/
inductive ReadAction where
  | toDirectChan (m : Message)
  | toGroupChan (m : Message)
  | toBroadcastChan (raw : Message)
  | sendSelf (m : Message)
  | dropFrame
deriving DecidableEq, Repr

/-- The `pong` heartbeat reply built in the `"ping"` case of
`Client.readPump` (client.go): `Message{Type: "pong", Timestamp: time.Now()}`. -/
def pongMsg (now : Nat) : Message :=
  { type := "pong", Timestamp := now }

/-- The stamping step of `Client.readPump` (client.go):
`msg.SenderID = c.UserID; msg.Timestamp = time.Now()`. -/
def stampMsg (userID : UUID) (now : Nat) (orig : Message) : Message :=
  { orig with SenderID := userID, Timestamp := now }

/-- The body of `Client.readPump` (client.go) after a successful
`json.Unmarshal`: stamp the message, then `switch msg.Type`.  The
`"typing"` case forwards `messageData` — the raw bytes as received, i.e.
the un-stamped original envelope `orig` under the marshal-as-identity
convention. -/
def readDispatch (userID : UUID) (now : Nat) (orig : Message) : ReadAction :=
  let msg := stampMsg userID now orig
  if msg.type = "new_message" then .toDirectChan msg
  else if msg.type = "new_group_message" then .toGroupChan msg
  else if msg.type = "message_read" then .toDirectChan msg
  else if msg.type = "typing" then .toBroadcastChan orig
  else if msg.type = "ping" then .sendSelf (pongMsg now)
  else .dropFrame

/-- Effect of a `ReadAction` on the hub, as performed by the corresponding
channel case of `Hub.Run` (for the three hub channels), or directly by the
read pump for `sendSelf` (`c.Send <- pongData` is an unconditional channel
send on the connection's own queue, not routed through the hub). -/
def applyReadAction (h : Hub) (cid : ClientId) : ReadAction → Hub
  | .toDirectChan m => routeDirect h m
  | .toGroupChan m => routeGroup h m
  | .toBroadcastChan raw => BroadcastToAll h raw
  | .sendSelf m =>
      match lookupA h.conns cid with
      | none => h
      | some c => { h with conns := insertA h.conns cid { c with Send := c.Send ++ [m] } }
  | .dropFrame => h

/-- `HandleWebSocket` (handler.go) builds each new client with
`Send: make(chan []byte, 256)`. -/
def mkClient (userID : UUID) (username : String) : Client :=
  { UserID := userID, Username := username, Send := [], SendCap := 256,
    SendClosed := false }

/-! ## Well-formedness of hub states

Association lists only represent Go maps when their keys are distinct, and
the register case only ever stores a client under its own `UserID`, so in
every reachable state the registry is coherent with the heap.  These are the
representation invariants used as hypotheses below. -/

/-- The user ID recorded in the heap for a connection id, if any. -/
def connUserA (conns : List (ClientId × Client)) (cid : ClientId) : Option UUID :=
  (lookupA conns cid).map Client.UserID

/-- No two registry entries point at the same connection object. -/
def ValsInj (l : List (UUID × ClientId)) : Prop :=
  ∀ p ∈ l, ∀ q ∈ l, p.2 = q.2 → p.1 = q.1

theorem valsInj_of_coherent (conns : List (ClientId × Client))
    (l : List (UUID × ClientId))
    (hco : ∀ p ∈ l, connUserA conns p.2 = some p.1) : ValsInj l := by
  intro p hp q hq hpq
  have h1 := hco p hp
  have h2 := hco q hq
  rw [hpq, h2] at h1
  injection h1 with h1
  exact h1.symm

theorem valsInj_sub (l l' : List (UUID × ClientId))
    (hsub : ∀ p ∈ l', p ∈ l) (h : ValsInj l) : ValsInj l' :=
  fun p hp q hq hpq => h p (hsub p hp) q (hsub q hq) hpq

/-! ## Characterization of `broadcastAux` -/

theorem broadcastAux_conns_untouched (conns : List (ClientId × Client))
    (entries : List (UUID × ClientId)) (m : Message) (cid : ClientId)
    (h : ∀ p ∈ entries, p.2 ≠ cid) :
    lookupA (broadcastAux conns entries m).1 cid = lookupA conns cid := by
  induction entries generalizing conns with
  | nil => rw [broadcastAux]
  | cons p rest ih =>
      obtain ⟨u0, c0⟩ := p
      have hne : c0 ≠ cid := h (u0, c0) (List.mem_cons_self _ _)
      have hrest : ∀ p ∈ rest, p.2 ≠ cid :=
        fun p hp => h p (List.mem_cons_of_mem _ hp)
      cases hc : lookupA conns c0 with
      | none => simpa [broadcastAux, hc] using ih conns hrest
      | some c =>
          by_cases hroom : c.Send.length < c.SendCap
          · have := ih (insertA conns c0 { c with Send := c.Send ++ [m] }) hrest
            simpa [broadcastAux, hc, hroom, lookupA_insertA_ne _ _ _ _ (Ne.symm hne)] using this
          · have := ih (insertA conns c0 { c with SendClosed := true }) hrest
            simpa [broadcastAux, hc, hroom, lookupA_insertA_ne _ _ _ _ (Ne.symm hne)] using this

theorem broadcastAux_conns_hit (conns : List (ClientId × Client))
    (entries : List (UUID × ClientId)) (m : Message) (u : UUID) (cid : ClientId)
    (c : Client)
    (hk : (keysA entries).Nodup) (hv : ValsInj entries)
    (hmem : (u, cid) ∈ entries) (hc : lookupA conns cid = some c) :
    lookupA (broadcastAux conns entries m).1 cid =
      some (if c.Send.length < c.SendCap then { c with Send := c.Send ++ [m] }
            else { c with SendClosed := true }) := by
  induction entries generalizing conns with
  | nil => exact absurd hmem (List.not_mem_nil _)
  | cons p rest ih =>
      obtain ⟨u0, c0⟩ := p
      rw [keysA_cons, List.nodup_cons] at hk
      rcases List.mem_cons.mp hmem with hhead | htail
      · have hu : u0 = u := (congrArg Prod.fst hhead).symm
        have hcid : c0 = cid := (congrArg Prod.snd hhead).symm
        subst hu
        subst hcid
        have hrest : ∀ p ∈ rest, p.2 ≠ c0 := by
          intro p hp hpc
          have := hv p (List.mem_cons_of_mem _ hp) (u0, c0) (List.mem_cons_self _ _) hpc
          exact hk.1 (by rw [← this]; exact List.mem_map_of_mem Prod.fst hp)
        by_cases hroom : c.Send.length < c.SendCap
        · have := broadcastAux_conns_untouched
            (insertA conns c0 { c with Send := c.Send ++ [m] }) rest m c0 hrest
          simp [broadcastAux, hc, hroom, this, lookupA_insertA_self]
        · have := broadcastAux_conns_untouched
            (insertA conns c0 { c with SendClosed := true }) rest m c0 hrest
          simp [broadcastAux, hc, hroom, this, lookupA_insertA_self]
      · have hne : c0 ≠ cid := by
          intro hpc
          have := hv (u0, c0) (List.mem_cons_self _ _) (u, cid) hmem hpc
          exact hk.1 (by rw [this]; exact List.mem_map_of_mem Prod.fst htail)
        have hv' : ValsInj rest :=
          valsInj_sub _ _ (fun p hp => List.mem_cons_of_mem _ hp) hv
        cases hc0 : lookupA conns c0 with
        | none => simpa [broadcastAux, hc0] using ih conns hk.2 hv' htail hc
        | some c2 =>
            by_cases hroom : c2.Send.length < c2.SendCap
            · have := ih (insertA conns c0 { c2 with Send := c2.Send ++ [m] }) hk.2 hv' htail
                (by rw [lookupA_insertA_ne _ _ _ _ (Ne.symm hne)]; exact hc)
              simpa [broadcastAux, hc0, hroom] using this
            · have := ih (insertA conns c0 { c2 with SendClosed := true }) hk.2 hv' htail
                (by rw [lookupA_insertA_ne _ _ _ _ (Ne.symm hne)]; exact hc)
              simpa [broadcastAux, hc0, hroom] using this


theorem broadcastAux_clients_sublist (conns : List (ClientId × Client))
    (entries : List (UUID × ClientId)) (m : Message) :
    List.Sublist (broadcastAux conns entries m).2 entries := by
  induction entries generalizing conns with
  | nil => rw [broadcastAux]
  | cons p rest ih =>
      obtain ⟨u0, c0⟩ := p
      cases hc : lookupA conns c0 with
      | none =>
          simpa [broadcastAux, hc] using List.Sublist.cons₂ (u0, c0) (ih conns)
      | some c =>
          by_cases hroom : c.Send.length < c.SendCap
          · simpa [broadcastAux, hc, hroom] using
              List.Sublist.cons₂ (u0, c0)
                (ih (insertA conns c0 { c with Send := c.Send ++ [m] }))
          · simpa [broadcastAux, hc, hroom] using
              List.Sublist.cons (u0, c0)
                (ih (insertA conns c0 { c with SendClosed := true }))

theorem broadcastAux_clients_out (conns : List (ClientId × Client))
    (entries : List (UUID × ClientId)) (m : Message) (u : UUID)
    (h : ∀ p ∈ entries, p.1 ≠ u) :
    lookupA (broadcastAux conns entries m).2 u = none := by
  induction entries generalizing conns with
  | nil => rw [broadcastAux]; rfl
  | cons p rest ih =>
      obtain ⟨u0, c0⟩ := p
      have hne : u0 ≠ u := h (u0, c0) (List.mem_cons_self _ _)
      have hrest : ∀ p ∈ rest, p.1 ≠ u :=
        fun p hp => h p (List.mem_cons_of_mem _ hp)
      cases hc : lookupA conns c0 with
      | none => simpa [broadcastAux, hc, lookupA, hne] using ih conns hrest
      | some c =>
          by_cases hroom : c.Send.length < c.SendCap
          · simpa [broadcastAux, hc, hroom, lookupA, hne] using
              ih (insertA conns c0 { c with Send := c.Send ++ [m] }) hrest
          · simpa [broadcastAux, hc, hroom] using
              ih (insertA conns c0 { c with SendClosed := true }) hrest

theorem broadcastAux_clients_keep (conns : List (ClientId × Client))
    (entries : List (UUID × ClientId)) (m : Message) (u : UUID) (cid : ClientId)
    (c : Client)
    (hk : (keysA entries).Nodup) (hv : ValsInj entries)
    (hmem : (u, cid) ∈ entries) (hc : lookupA conns cid = some c)
    (hroomc : c.Send.length < c.SendCap) :
    lookupA (broadcastAux conns entries m).2 u = some cid := by
  induction entries generalizing conns with
  | nil => exact absurd hmem (List.not_mem_nil _)
  | cons p rest ih =>
      obtain ⟨u0, c0⟩ := p
      rw [keysA_cons, List.nodup_cons] at hk
      rcases List.mem_cons.mp hmem with hhead | htail
      · have hu : u0 = u := (congrArg Prod.fst hhead).symm
        have hcid : c0 = cid := (congrArg Prod.snd hhead).symm
        subst hu
        subst hcid
        simp [broadcastAux, hc, hroomc, lookupA]
      · have hne : u0 ≠ u := by
          intro he
          exact hk.1 (by rw [he]; exact List.mem_map.mpr ⟨(u, cid), htail, rfl⟩)
        have hcne : c0 ≠ cid := by
          intro he
          have := hv (u0, c0) (List.mem_cons_self _ _) (u, cid)
            (List.mem_cons_of_mem _ htail) he
          exact hne this
        have hv' : ValsInj rest :=
          valsInj_sub _ _ (fun p hp => List.mem_cons_of_mem _ hp) hv
        cases hc0 : lookupA conns c0 with
        | none =>
            simpa [broadcastAux, hc0, lookupA, hne] using
              ih conns hk.2 hv' htail hc
        | some c2 =>
            by_cases hroom : c2.Send.length < c2.SendCap
            · simpa [broadcastAux, hc0, hroom, lookupA, hne] using
                ih (insertA conns c0 { c2 with Send := c2.Send ++ [m] }) hk.2 hv' htail
                  (by rw [lookupA_insertA_ne _ _ _ _ (Ne.symm hcne)]; exact hc)
            · simpa [broadcastAux, hc0, hroom] using
                ih (insertA conns c0 { c2 with SendClosed := true }) hk.2 hv' htail
                  (by rw [lookupA_insertA_ne _ _ _ _ (Ne.symm hcne)]; exact hc)

theorem broadcastAux_clients_drop (conns : List (ClientId × Client))
    (entries : List (UUID × ClientId)) (m : Message) (u : UUID) (cid : ClientId)
    (c : Client)
    (hk : (keysA entries).Nodup) (hv : ValsInj entries)
    (hmem : (u, cid) ∈ entries) (hc : lookupA conns cid = some c)
    (hfull : ¬c.Send.length < c.SendCap) :
    lookupA (broadcastAux conns entries m).2 u = none := by
  induction entries generalizing conns with
  | nil => exact absurd hmem (List.not_mem_nil _)
  | cons p rest ih =>
      obtain ⟨u0, c0⟩ := p
      rw [keysA_cons, List.nodup_cons] at hk
      rcases List.mem_cons.mp hmem with hhead | htail
      · have hu : u0 = u := (congrArg Prod.fst hhead).symm
        have hcid : c0 = cid := (congrArg Prod.snd hhead).symm
        subst hu
        subst hcid
        have hrest : ∀ p ∈ rest, p.1 ≠ u0 := by
          intro p hp he
          exact hk.1 (by rw [← he]; exact List.mem_map.mpr ⟨p, hp, rfl⟩)
        simpa [broadcastAux, hc, hfull] using
          broadcastAux_clients_out (insertA conns c0 { c with SendClosed := true })
            rest m u0 hrest
      · have hne : u0 ≠ u := by
          intro he
          exact hk.1 (by rw [he]; exact List.mem_map.mpr ⟨(u, cid), htail, rfl⟩)
        have hcne : c0 ≠ cid := by
          intro he
          have := hv (u0, c0) (List.mem_cons_self _ _) (u, cid)
            (List.mem_cons_of_mem _ htail) he
          exact hne this
        have hv' : ValsInj rest :=
          valsInj_sub _ _ (fun p hp => List.mem_cons_of_mem _ hp) hv
        cases hc0 : lookupA conns c0 with
        | none =>
            simpa [broadcastAux, hc0, lookupA, hne] using
              ih conns hk.2 hv' htail hc
        | some c2 =>
            by_cases hroom : c2.Send.length < c2.SendCap
            · simpa [broadcastAux, hc0, hroom, lookupA, hne] using
                ih (insertA conns c0 { c2 with Send := c2.Send ++ [m] }) hk.2 hv' htail
                  (by rw [lookupA_insertA_ne _ _ _ _ (Ne.symm hcne)]; exact hc)
            · simpa [broadcastAux, hc0, hroom] using
                ih (insertA conns c0 { c2 with SendClosed := true }) hk.2 hv' htail
                  (by rw [lookupA_insertA_ne _ _ _ _ (Ne.symm hcne)]; exact hc)

/-! ## Characterization of `groupSendAux` -/

theorem groupSendAux_clients_preserve (conns : List (ClientId × Client))
    (clients : List (UUID × ClientId)) (members : List UUID) (m : Message)
    (u : UUID) (h : u ∉ members) :
    lookupA (groupSendAux conns clients members m).2 u = lookupA clients u := by
  induction members generalizing conns clients with
  | nil => rw [groupSendAux]
  | cons u0 rest ih =>
      rw [List.mem_cons] at h
      push_neg at h
      cases hu0 : lookupA clients u0 with
      | none => simpa [groupSendAux, hu0] using ih conns clients h.2
      | some cid =>
          cases hc : lookupA conns cid with
          | none => simpa [groupSendAux, hu0, hc] using ih conns clients h.2
          | some c =>
              by_cases hroom : c.Send.length < c.SendCap
              · simpa [groupSendAux, hu0, hc, hroom] using
                  ih (insertA conns cid { c with Send := c.Send ++ [m] }) clients h.2
              · have := ih (insertA conns cid { c with SendClosed := true })
                  (eraseA clients u0) h.2
                rw [lookupA_eraseA_ne _ _ _ h.1] at this
                simpa [groupSendAux, hu0, hc, hroom] using this

theorem groupSendAux_conns_untouched (conns : List (ClientId × Client))
    (clients : List (UUID × ClientId)) (members : List UUID) (m : Message)
    (cid : ClientId)
    (hm : members.Nodup)
    (h : ∀ u ∈ members, lookupA clients u ≠ some cid) :
    lookupA (groupSendAux conns clients members m).1 cid = lookupA conns cid := by
  induction members generalizing conns clients with
  | nil => rw [groupSendAux]
  | cons u0 rest ih =>
      rw [List.nodup_cons] at hm
      have hrest : ∀ u ∈ rest, lookupA clients u ≠ some cid :=
        fun u hu => h u (List.mem_cons_of_mem _ hu)
      cases hu0 : lookupA clients u0 with
      | none => simpa [groupSendAux, hu0] using ih conns clients hm.2 hrest
      | some c0 =>
          have hcne : c0 ≠ cid := by
            intro he
            exact h u0 (List.mem_cons_self _ _) (he ▸ hu0)
          cases hc : lookupA conns c0 with
          | none => simpa [groupSendAux, hu0, hc] using ih conns clients hm.2 hrest
          | some c =>
              by_cases hroom : c.Send.length < c.SendCap
              · have := ih (insertA conns c0 { c with Send := c.Send ++ [m] })
                  clients hm.2 hrest
                rw [lookupA_insertA_ne _ _ _ _ (Ne.symm hcne)] at this
                simpa [groupSendAux, hu0, hc, hroom] using this
              · have := ih (insertA conns c0 { c with SendClosed := true })
                  (eraseA clients u0) hm.2 (by
                    intro u hu
                    rw [lookupA_eraseA_ne _ _ _ (fun he => hm.1 (by rw [← he]; exact hu))]
                    exact hrest u hu)
                rw [lookupA_insertA_ne _ _ _ _ (Ne.symm hcne)] at this
                simpa [groupSendAux, hu0, hc, hroom] using this

theorem groupSendAux_conns_hit (conns : List (ClientId × Client))
    (clients : List (UUID × ClientId)) (members : List UUID) (m : Message)
    (u : UUID) (cid : ClientId) (c : Client)
    (hm : members.Nodup) (hk : (keysA clients).Nodup) (hv : ValsInj clients)
    (hmem : u ∈ members) (hu : lookupA clients u = some cid)
    (hc : lookupA conns cid = some c) :
    lookupA (groupSendAux conns clients members m).1 cid =
      some (if c.Send.length < c.SendCap then { c with Send := c.Send ++ [m] }
            else { c with SendClosed := true }) := by
  induction members generalizing conns clients with
  | nil => exact absurd hmem (List.not_mem_nil _)
  | cons u0 rest ih =>
      rw [List.nodup_cons] at hm
      rcases List.mem_cons.mp hmem with hhead | htail
      · subst hhead
        have hrest : ∀ u' ∈ rest, lookupA clients u' ≠ some cid := by
          intro u' hu' he
          have h2 : u' = u := hv (u', cid) (mem_of_lookupA_eq_some _ _ _ he)
            (u, cid) (mem_of_lookupA_eq_some _ _ _ hu) rfl
          exact hm.1 (by rw [← h2]; exact hu')
        by_cases hroom : c.Send.length < c.SendCap
        · have := groupSendAux_conns_untouched
            (insertA conns cid { c with Send := c.Send ++ [m] }) clients rest m cid
            hm.2 hrest
          simp [groupSendAux, hu, hc, hroom, this, lookupA_insertA_self]
        · have := groupSendAux_conns_untouched
            (insertA conns cid { c with SendClosed := true }) (eraseA clients u) rest m cid
            hm.2 (by
              intro u' hu'
              rw [lookupA_eraseA_ne _ _ _ (fun he => hm.1 (by rw [← he]; exact hu'))]
              exact hrest u' hu')
          simp [groupSendAux, hu, hc, hroom, this, lookupA_insertA_self]
      · have hne : u0 ≠ u := fun he => hm.1 (by rw [he]; exact htail)
        cases hu0 : lookupA clients u0 with
        | none => simpa [groupSendAux, hu0] using ih conns clients hm.2 hk hv htail hu hc
        | some c0 =>
            have hcne : c0 ≠ cid := by
              intro he
              subst he
              exact hne (hv (u0, c0) (mem_of_lookupA_eq_some _ _ _ hu0)
                (u, c0) (mem_of_lookupA_eq_some _ _ _ hu) rfl)
            cases hc0 : lookupA conns c0 with
            | none => simpa [groupSendAux, hu0, hc0] using ih conns clients hm.2 hk hv htail hu hc
            | some c2 =>
                by_cases hroom : c2.Send.length < c2.SendCap
                · simpa [groupSendAux, hu0, hc0, hroom] using
                    ih (insertA conns c0 { c2 with Send := c2.Send ++ [m] }) clients hm.2 hk hv
                      htail hu (by rw [lookupA_insertA_ne _ _ _ _ (Ne.symm hcne)]; exact hc)
                · simpa [groupSendAux, hu0, hc0, hroom] using
                    ih (insertA conns c0 { c2 with SendClosed := true }) (eraseA clients u0)
                      hm.2 (keysA_eraseA_nodup _ _ hk)
                      (valsInj_sub _ _ (fun p hp => mem_eraseA _ _ p hp) hv)
                      htail (by rw [lookupA_eraseA_ne _ _ _ (Ne.symm hne)]; exact hu)
                      (by rw [lookupA_insertA_ne _ _ _ _ (Ne.symm hcne)]; exact hc)

theorem groupSendAux_clients_keep (conns : List (ClientId × Client))
    (clients : List (UUID × ClientId)) (members : List UUID) (m : Message)
    (u : UUID) (cid : ClientId) (c : Client)
    (hm : members.Nodup) (hk : (keysA clients).Nodup) (hv : ValsInj clients)
    (hmem : u ∈ members) (hu : lookupA clients u = some cid)
    (hc : lookupA conns cid = some c) (hroomc : c.Send.length < c.SendCap) :
    lookupA (groupSendAux conns clients members m).2 u = some cid := by
  induction members generalizing conns clients with
  | nil => exact absurd hmem (List.not_mem_nil _)
  | cons u0 rest ih =>
      rw [List.nodup_cons] at hm
      rcases List.mem_cons.mp hmem with hhead | htail
      · subst hhead
        have := groupSendAux_clients_preserve
          (insertA conns cid { c with Send := c.Send ++ [m] }) clients rest m u hm.1
        simp [groupSendAux, hu, hc, hroomc, this, hu]
      · have hne : u0 ≠ u := fun he => hm.1 (by rw [he]; exact htail)
        cases hu0 : lookupA clients u0 with
        | none => simpa [groupSendAux, hu0] using ih conns clients hm.2 hk hv htail hu hc
        | some c0 =>
            have hcne : c0 ≠ cid := by
              intro he
              subst he
              exact hne (hv (u0, c0) (mem_of_lookupA_eq_some _ _ _ hu0)
                (u, c0) (mem_of_lookupA_eq_some _ _ _ hu) rfl)
            cases hc0 : lookupA conns c0 with
            | none => simpa [groupSendAux, hu0, hc0] using ih conns clients hm.2 hk hv htail hu hc
            | some c2 =>
                by_cases hroom : c2.Send.length < c2.SendCap
                · simpa [groupSendAux, hu0, hc0, hroom] using
                    ih (insertA conns c0 { c2 with Send := c2.Send ++ [m] }) clients hm.2 hk hv
                      htail hu (by rw [lookupA_insertA_ne _ _ _ _ (Ne.symm hcne)]; exact hc)
                · simpa [groupSendAux, hu0, hc0, hroom] using
                    ih (insertA conns c0 { c2 with SendClosed := true }) (eraseA clients u0)
                      hm.2 (keysA_eraseA_nodup _ _ hk)
                      (valsInj_sub _ _ (fun p hp => mem_eraseA _ _ p hp) hv)
                      htail (by rw [lookupA_eraseA_ne _ _ _ (Ne.symm hne)]; exact hu)
                      (by rw [lookupA_insertA_ne _ _ _ _ (Ne.symm hcne)]; exact hc)

theorem groupSendAux_clients_drop (conns : List (ClientId × Client))
    (clients : List (UUID × ClientId)) (members : List UUID) (m : Message)
    (u : UUID) (cid : ClientId) (c : Client)
    (hm : members.Nodup) (hk : (keysA clients).Nodup) (hv : ValsInj clients)
    (hmem : u ∈ members) (hu : lookupA clients u = some cid)
    (hc : lookupA conns cid = some c) (hfull : ¬c.Send.length < c.SendCap) :
    lookupA (groupSendAux conns clients members m).2 u = none := by
  induction members generalizing conns clients with
  | nil => exact absurd hmem (List.not_mem_nil _)
  | cons u0 rest ih =>
      rw [List.nodup_cons] at hm
      rcases List.mem_cons.mp hmem with hhead | htail
      · subst hhead
        have := groupSendAux_clients_preserve
          (insertA conns cid { c with SendClosed := true }) (eraseA clients u) rest m u hm.1
        rw [lookupA_eraseA_self _ _ hk] at this
        simp [groupSendAux, hu, hc, hfull, this]
      · have hne : u0 ≠ u := fun he => hm.1 (by rw [he]; exact htail)
        cases hu0 : lookupA clients u0 with
        | none => simpa [groupSendAux, hu0] using ih conns clients hm.2 hk hv htail hu hc
        | some c0 =>
            have hcne : c0 ≠ cid := by
              intro he
              subst he
              exact hne (hv (u0, c0) (mem_of_lookupA_eq_some _ _ _ hu0)
                (u, c0) (mem_of_lookupA_eq_some _ _ _ hu) rfl)
            cases hc0 : lookupA conns c0 with
            | none => simpa [groupSendAux, hu0, hc0] using ih conns clients hm.2 hk hv htail hu hc
            | some c2 =>
                by_cases hroom : c2.Send.length < c2.SendCap
                · simpa [groupSendAux, hu0, hc0, hroom] using
                    ih (insertA conns c0 { c2 with Send := c2.Send ++ [m] }) clients hm.2 hk hv
                      htail hu (by rw [lookupA_insertA_ne _ _ _ _ (Ne.symm hcne)]; exact hc)
                · simpa [groupSendAux, hu0, hc0, hroom] using
                    ih (insertA conns c0 { c2 with SendClosed := true }) (eraseA clients u0)
                      hm.2 (keysA_eraseA_nodup _ _ hk)
                      (valsInj_sub _ _ (fun p hp => mem_eraseA _ _ p hp) hv)
                      htail (by rw [lookupA_eraseA_ne _ _ _ (Ne.symm hne)]; exact hu)
                      (by rw [lookupA_insertA_ne _ _ _ _ (Ne.symm hcne)]; exact hc)

/-! ## Counting registry entries -/

/-- Number of entries with a given key. -/
def countKey {α : Type} (l : List (UUID × α)) (k : UUID) : Nat :=
  l.countP (fun p => p.1 == k)

theorem countKey_pos_of_lookup {α : Type} (l : List (UUID × α)) (k : UUID) (v : α)
    (h : lookupA l k = some v) : 1 ≤ countKey l k := by
  induction l with
  | nil => simp [lookupA] at h
  | cons p rest ih =>
      obtain ⟨k2, v2⟩ := p
      rw [lookupA] at h
      by_cases h2 : k2 = k
      · simp [countKey, List.countP_cons, h2]
      · rw [if_neg h2] at h
        have := ih h
        simpa [countKey, List.countP_cons, h2] using this

theorem countKey_eq_zero_of_not_mem {α : Type} (l : List (UUID × α)) (k : UUID)
    (h : k ∉ keysA l) : countKey l k = 0 := by
  induction l with
  | nil => rfl
  | cons p rest ih =>
      obtain ⟨k2, v2⟩ := p
      rw [keysA_cons, List.mem_cons] at h
      push_neg at h
      simp [countKey, List.countP_cons, Ne.symm h.1]
      simpa [countKey] using ih h.2

theorem countKey_le_one_of_nodup {α : Type} (l : List (UUID × α)) (k : UUID)
    (h : (keysA l).Nodup) : countKey l k ≤ 1 := by
  induction l with
  | nil => simp [countKey]
  | cons p rest ih =>
      obtain ⟨k2, v2⟩ := p
      rw [keysA_cons, List.nodup_cons] at h
      rw [countKey, List.countP_cons]
      by_cases h2 : k2 = k
      · subst h2
        have h0 : countKey rest k2 = 0 := countKey_eq_zero_of_not_mem rest k2 h.1
        rw [countKey] at h0
        simp [h0]
      · have h1 : countKey rest k ≤ 1 := ih h.2
        rw [countKey] at h1
        simpa [h2] using h1

theorem countKey_le_of_sublist {α : Type} (l1 l2 : List (UUID × α)) (k : UUID)
    (h : List.Sublist l1 l2) : countKey l1 k ≤ countKey l2 k :=
  List.Sublist.countP_le _ h

/-! ## Strong membership lemmas (under distinct keys) -/

theorem mem_insertA_strong {α : Type} (l : List (UUID × α)) (k : UUID) (v : α)
    (p : UUID × α) (hk : (keysA l).Nodup) (h : p ∈ insertA l k v) :
    p = (k, v) ∨ (p ∈ l ∧ p.1 ≠ k) := by
  induction l with
  | nil =>
      rw [insertA] at h
      exact Or.inl (by simpa using h)
  | cons q rest ih =>
      obtain ⟨k2, v2⟩ := q
      rw [keysA_cons, List.nodup_cons] at hk
      by_cases h2 : k2 = k
      · subst h2
        rw [insertA, if_pos rfl, List.mem_cons] at h
        rcases h with h | h
        · exact Or.inl h
        · refine Or.inr ⟨List.mem_cons_of_mem _ h, fun he => hk.1 ?_⟩
          rw [← he]
          exact List.mem_map.mpr ⟨p, h, rfl⟩
      · rw [insertA, if_neg h2, List.mem_cons] at h
        rcases h with h | h
        · exact Or.inr ⟨by simp [h], by rw [h]; exact h2⟩
        · rcases ih hk.2 h with h3 | h3
          · exact Or.inl h3
          · exact Or.inr ⟨List.mem_cons_of_mem _ h3.1, h3.2⟩

theorem mem_eraseA_strong {α : Type} (l : List (UUID × α)) (k : UUID)
    (p : UUID × α) (hk : (keysA l).Nodup) (h : p ∈ eraseA l k) :
    p ∈ l ∧ p.1 ≠ k := by
  induction l with
  | nil =>
      rw [eraseA] at h
      exact absurd h (List.not_mem_nil p)
  | cons q rest ih =>
      obtain ⟨k2, v2⟩ := q
      rw [keysA_cons, List.nodup_cons] at hk
      by_cases h2 : k2 = k
      · subst h2
        rw [eraseA, if_pos rfl] at h
        refine ⟨List.mem_cons_of_mem _ h, fun he => hk.1 ?_⟩
        rw [← he]
        exact List.mem_map.mpr ⟨p, h, rfl⟩
      · rw [eraseA, if_neg h2, List.mem_cons] at h
        rcases h with h | h
        · exact ⟨by simp [h], by rw [h]; exact h2⟩
        · rcases ih hk.2 h with ⟨h3, h4⟩
          exact ⟨List.mem_cons_of_mem _ h3, h4⟩

theorem insertA_insertA {α : Type} (l : List (UUID × α)) (k : UUID) (v w : α) :
    insertA (insertA l k v) k w = insertA l k w := by
  induction l with
  | nil => simp [insertA]
  | cons q rest ih =>
      obtain ⟨k2, v2⟩ := q
      by_cases h2 : k2 = k
      · rw [insertA, if_pos h2, insertA, if_pos rfl, insertA, if_pos h2]
      · rw [insertA, if_neg h2, insertA, if_neg h2, insertA, if_neg h2, ih]

/-! ## Claims C3, C8, C9 — read-pump dispatch -/

/-- C3 (counterexample): the wire-protocol type names of the claim do not
exist in the dispatch switch of `Client.readPump`.  A frame of type
`"new_direct"` (resp. `"new_group"`, `"read_receipt"`) is NOT routed as a
direct (resp. group, direct) message: all three fall into the `default`
case and are dropped. -/
theorem C3_counterexample :
    readDispatch 1 5 { type := "new_direct", ReceiverID := 2 } = ReadAction.dropFrame ∧
    readDispatch 1 5 { type := "new_group", GroupID := 3 } = ReadAction.dropFrame ∧
    readDispatch 1 5 { type := "read_receipt", ReceiverID := 2 } = ReadAction.dropFrame := by
  decide

/-- C3 (amended): the read pump dispatches by the type names actually used
by the code: `"new_message"` and `"message_read"` are routed to the hub's
direct-message channel, `"new_group_message"` to the group channel,
`"typing"` is broadcast raw, `"ping"` is answered directly, and every type
outside that enum is dropped. -/
theorem C3_dispatch_table (userID : UUID) (now : Nat) (orig : Message) :
    ((orig.type = "new_message" ∨ orig.type = "message_read") →
      readDispatch userID now orig = ReadAction.toDirectChan (stampMsg userID now orig)) ∧
    (orig.type = "new_group_message" →
      readDispatch userID now orig = ReadAction.toGroupChan (stampMsg userID now orig)) ∧
    (orig.type = "typing" →
      readDispatch userID now orig = ReadAction.toBroadcastChan orig) ∧
    (orig.type = "ping" →
      readDispatch userID now orig = ReadAction.sendSelf (pongMsg now)) ∧
    (orig.type ∉ ["new_message", "new_group_message", "message_read", "typing", "ping"] →
      readDispatch userID now orig = ReadAction.dropFrame) := by
  refine ⟨?_, ?_, ?_, ?_, ?_⟩
  · rintro (h | h) <;> simp [readDispatch, stampMsg, h]
  · intro h
    simp [readDispatch, stampMsg, h]
  · intro h
    simp [readDispatch, stampMsg, h]
  · intro h
    simp [readDispatch, stampMsg, h]
  · intro h
    simp only [List.mem_cons, List.mem_singleton] at h
    push_neg at h
    obtain ⟨h1, h2, h3, h4, h5⟩ := h
    simp [readDispatch, stampMsg, h1, h2, h3, h4, h5]

/-- C3 (witness for the amended dispatch table). -/
theorem C3_dispatch_table_witness :
    readDispatch 1 5 { type := "new_message", ReceiverID := 2 } =
      ReadAction.toDirectChan (stampMsg 1 5 { type := "new_message", ReceiverID := 2 }) ∧
    readDispatch 1 5 { type := "garbage" } = ReadAction.dropFrame :=
  ⟨(C3_dispatch_table 1 5 { type := "new_message", ReceiverID := 2 }).1 (Or.inl rfl),
   (C3_dispatch_table 1 5 { type := "garbage" }).2.2.2.2 (by decide)⟩

/-- C8 (counterexample): a `"typing"` frame is dispatched as the raw client
bytes.  With authenticated user 1 and a client-supplied `sender_id` of 99
and `timestamp` of 77, the broadcast payload still carries sender 99 and
timestamp 77 — the read pump's stamping does not reach the typing path. -/
theorem C8_counterexample :
    readDispatch 1 5 { type := "typing", SenderID := 99, Timestamp := 77 } =
      ReadAction.toBroadcastChan { type := "typing", SenderID := 99, Timestamp := 77 } ∧
    (99 : UUID) ≠ 1 ∧ (77 : Nat) ≠ 5 := by
  decide

/-- C8 (amended): every frame dispatched onward as a typed message — to the
hub's direct or group channel — carries `SenderID` equal to the
connection's authenticated user ID and the server-assigned receipt
timestamp, regardless of client-supplied values; the `"typing"` case is
the exception: it broadcasts the raw client frame unmodified. -/
theorem C8_sender_stamping (userID : UUID) (now : Nat) (orig : Message) :
    (∀ mm, readDispatch userID now orig = ReadAction.toDirectChan mm →
      mm.SenderID = userID ∧ mm.Timestamp = now) ∧
    (∀ mm, readDispatch userID now orig = ReadAction.toGroupChan mm →
      mm.SenderID = userID ∧ mm.Timestamp = now) ∧
    (orig.type = "typing" →
      readDispatch userID now orig = ReadAction.toBroadcastChan orig) := by
  refine ⟨?_, ?_, ?_⟩
  · intro mm hmm
    rw [readDispatch] at hmm
    split_ifs at hmm
    all_goals injection hmm with hmm2
    all_goals rw [← hmm2]
    all_goals exact ⟨rfl, rfl⟩
  · intro mm hmm
    rw [readDispatch] at hmm
    split_ifs at hmm
    all_goals injection hmm with hmm2
    all_goals rw [← hmm2]
    all_goals exact ⟨rfl, rfl⟩
  · intro h
    simp [readDispatch, stampMsg, h]

/-- C8 (witness for the amended stamping statement). -/
theorem C8_sender_stamping_witness :
    (stampMsg 1 5 { type := "new_message", SenderID := 99 }).SenderID = 1 ∧
    (stampMsg 1 5 { type := "new_message", SenderID := 99 }).Timestamp = 5 :=
  (C8_sender_stamping 1 5 { type := "new_message", SenderID := 99 }).1
    (stampMsg 1 5 { type := "new_message", SenderID := 99 }) (by decide)

/-- C9: a `"ping"` frame produces exactly one `"pong"` frame on the same
connection's own outbound queue, does not pass through the hub (the action
is a direct self-send, and registry and groups are untouched), and no
frame is enqueued on any other connection. -/
theorem C9_ping_pong (h : Hub) (cid : ClientId) (c : Client) (userID : UUID)
    (now : Nat) (orig : Message)
    (hc : lookupA h.conns cid = some c) (hty : orig.type = "ping") :
    readDispatch userID now orig = ReadAction.sendSelf (pongMsg now) ∧
    lookupA (applyReadAction h cid (readDispatch userID now orig)).conns cid =
      some { c with Send := c.Send ++ [pongMsg now] } ∧
    (∀ cid2, cid2 ≠ cid →
      lookupA (applyReadAction h cid (readDispatch userID now orig)).conns cid2 =
        lookupA h.conns cid2) ∧
    (applyReadAction h cid (readDispatch userID now orig)).clients = h.clients ∧
    (applyReadAction h cid (readDispatch userID now orig)).groups = h.groups := by
  have hd : readDispatch userID now orig = ReadAction.sendSelf (pongMsg now) := by
    simp [readDispatch, stampMsg, hty]
  refine ⟨hd, ?_, ?_, ?_, ?_⟩
  · rw [hd]
    simp [applyReadAction, hc, lookupA_insertA_self]
  · intro cid2 hne
    rw [hd]
    simp [applyReadAction, hc, lookupA_insertA_ne _ _ _ _ hne]
  · rw [hd]
    simp [applyReadAction, hc]
  · rw [hd]
    simp [applyReadAction, hc]

/-- C9 (witness): concrete two-client hub; pinging from connection 1
enqueues one pong on connection 1 and leaves connection 2 untouched. -/
theorem C9_ping_pong_witness :
    readDispatch 7 5 { type := "ping" } = ReadAction.sendSelf (pongMsg 5) ∧
    lookupA (applyReadAction
        { conns := [(1, mkClient 7 "a"), (2, mkClient 8 "b")],
          clients := [(7, 1), (8, 2)], groups := [] } 1
        (readDispatch 7 5 { type := "ping" })).conns 1 =
      some { mkClient 7 "a" with Send := (mkClient 7 "a").Send ++ [pongMsg 5] } ∧
    lookupA (applyReadAction
        { conns := [(1, mkClient 7 "a"), (2, mkClient 8 "b")],
          clients := [(7, 1), (8, 2)], groups := [] } 1
        (readDispatch 7 5 { type := "ping" })).conns 2 =
      lookupA ([(1, mkClient 7 "a"), (2, mkClient 8 "b")] :
        List (ClientId × Client)) 2 := by
  have hmain := C9_ping_pong
    { conns := [(1, mkClient 7 "a"), (2, mkClient 8 "b")],
      clients := [(7, 1), (8, 2)], groups := [] } 1 (mkClient 7 "a") 7 5
    { type := "ping" } (by decide) rfl
  exact ⟨hmain.1, hmain.2.1, hmain.2.2.1 2 (by decide)⟩

/-! ## Claim C4 — direct routing -/

set_option maxRecDepth 4096 in
/-- C4 (counterexample): a registered receiver whose outbound queue is at
capacity receives zero frames (its queue is unchanged and then closed) and
is evicted, so "routing a direct message whose receiver is a currently
registered user enqueues exactly one frame on that user's connection" is
false at this hub state. -/
theorem C4_counterexample :
    (SendToUser
        { conns := [(1, { UserID := 7, Username := "a",
                          Send := List.replicate 256 (pongMsg 0), SendCap := 256,
                          SendClosed := false })],
          clients := [(7, 1)], groups := [] } 7
        { type := "new_message", ReceiverID := 7, Content := "hi" }).clients = [] ∧
    lookupA (SendToUser
        { conns := [(1, { UserID := 7, Username := "a",
                          Send := List.replicate 256 (pongMsg 0), SendCap := 256,
                          SendClosed := false })],
          clients := [(7, 1)], groups := [] } 7
        { type := "new_message", ReceiverID := 7, Content := "hi" }).conns 1 =
      some { UserID := 7, Username := "a",
             Send := List.replicate 256 (pongMsg 0), SendCap := 256,
             SendClosed := true } ∧
    ({ type := "new_message", ReceiverID := 7, Content := "hi" } : Message) ∉
      List.replicate 256 (pongMsg 0) := by
  decide

/-- C4 (amended): routing a direct message to a registered receiver whose
bounded outbound queue is below capacity enqueues exactly one frame on
that receiver's connection and zero frames on every other connection, and
leaves registry and groups unchanged; routing to an unregistered receiver
is a total no-op (and raises no error — `SendToUser` has no error path).
A registered receiver at capacity instead triggers the C7 eviction. -/
theorem C4_direct_routing (h : Hub) (r : UUID) (m : Message) :
    (lookupA h.clients r = none → SendToUser h r m = h) ∧
    (∀ cid c, lookupA h.clients r = some cid → lookupA h.conns cid = some c →
      c.Send.length < c.SendCap →
      lookupA (SendToUser h r m).conns cid = some { c with Send := c.Send ++ [m] } ∧
      (∀ cid2, cid2 ≠ cid →
        lookupA (SendToUser h r m).conns cid2 = lookupA h.conns cid2) ∧
      (SendToUser h r m).clients = h.clients ∧
      (SendToUser h r m).groups = h.groups) := by
  constructor
  · intro hnone
    rw [SendToUser, hnone]
  · intro cid c hcid hc hroom
    refine ⟨?_, ?_, ?_, ?_⟩
    · rw [SendToUser, hcid]
      simp [hc, hroom, lookupA_insertA_self]
    · intro cid2 hne
      rw [SendToUser, hcid]
      simp [hc, hroom, lookupA_insertA_ne _ _ _ _ hne]
    · rw [SendToUser, hcid]
      simp [hc, hroom]
    · rw [SendToUser, hcid]
      simp [hc, hroom]

/-- C4 (witness): concrete hub with receiver 7 on connection 1 (queue below
capacity) and bystander 8 on connection 2. -/
theorem C4_direct_routing_witness :
    lookupA (SendToUser
        { conns := [(1, mkClient 7 "a"), (2, mkClient 8 "b")],
          clients := [(7, 1), (8, 2)], groups := [] } 7
        { type := "new_message", ReceiverID := 7, Content := "hi" }).conns 1 =
      some { mkClient 7 "a" with
             Send := (mkClient 7 "a").Send ++
               [{ type := "new_message", ReceiverID := 7, Content := "hi" }] } ∧
    lookupA (SendToUser
        { conns := [(1, mkClient 7 "a"), (2, mkClient 8 "b")],
          clients := [(7, 1), (8, 2)], groups := [] } 7
        { type := "new_message", ReceiverID := 7, Content := "hi" }).conns 2 =
      lookupA ([(1, mkClient 7 "a"), (2, mkClient 8 "b")] :
        List (ClientId × Client)) 2 ∧
    (SendToUser
        { conns := [(1, mkClient 7 "a"), (2, mkClient 8 "b")],
          clients := [(7, 1), (8, 2)], groups := [] } 9
        { type := "new_message", ReceiverID := 9, Content := "hi" }) =
      { conns := [(1, mkClient 7 "a"), (2, mkClient 8 "b")],
        clients := [(7, 1), (8, 2)], groups := [] } := by
  have hmain := (C4_direct_routing
    { conns := [(1, mkClient 7 "a"), (2, mkClient 8 "b")],
      clients := [(7, 1), (8, 2)], groups := [] } 7
    { type := "new_message", ReceiverID := 7, Content := "hi" }).2 1 (mkClient 7 "a")
    rfl rfl (by decide)
  have hoff := (C4_direct_routing
    { conns := [(1, mkClient 7 "a"), (2, mkClient 8 "b")],
      clients := [(7, 1), (8, 2)], groups := [] } 9
    { type := "new_message", ReceiverID := 9, Content := "hi" }).1 (by decide)
  exact ⟨hmain.1, hmain.2.1 2 (by decide), hoff⟩

/-! ## Claims C6, C10 — group membership cache -/

theorem filter_bne_eq_self (ms : List UUID) (u : UUID) (h : u ∉ ms) :
    ms.filter (fun x => x != u) = ms := by
  apply List.filter_eq_self.mpr
  intro x hx
  rw [bne_iff_ne]
  intro he
  rw [he] at hx
  exact h hx

theorem nodup_append_singleton (ms : List UUID) (u : UUID)
    (h1 : ms.Nodup) (h2 : u ∉ ms) : (ms ++ [u]).Nodup := by
  rw [List.nodup_append]
  refine ⟨h1, List.nodup_singleton u, ?_⟩
  intro x hx hxu
  rw [List.mem_singleton] at hxu
  rw [hxu] at hx
  exact h2 hx

/-- C6 (counterexample): for a user who is ALREADY a member, AddMember is a
no-op but RemoveMember still removes them, so the Add-then-Remove round
trip does not restore the prior cache state. -/
theorem C6_counterexample :
    RemoveUserFromGroup
        (AddUserToGroup { conns := [], clients := [], groups := [(1, [2])] } 1 2) 1 2 ≠
      { conns := [], clients := [], groups := [(1, [2])] } ∧
    (RemoveUserFromGroup
        (AddUserToGroup { conns := [], clients := [], groups := [(1, [2])] } 1 2) 1 2).groups =
      [] := by
  decide

/-- C6 (amended): AddUserToGroup followed immediately by RemoveUserFromGroup
for the same (group, user) pair restores the groups cache exactly,
provided the user was not already a cached member (and the cached member
list, if present, is non-empty, as in every reachable state); moreover
AddUserToGroup on an already-present member is a no-op, and
RemoveUserFromGroup on an absent member (with a non-empty cached list, or
no cached list at all) is a no-op. -/
theorem C6_membership_roundtrip (h : Hub) (g u : UUID) :
    ((∀ ms, lookupA h.groups g = some ms → u ∉ ms ∧ ms ≠ []) →
      RemoveUserFromGroup (AddUserToGroup h g u) g u = h) ∧
    (∀ ms, lookupA h.groups g = some ms → u ∈ ms → AddUserToGroup h g u = h) ∧
    ((∀ ms, lookupA h.groups g = some ms → u ∉ ms ∧ ms ≠ []) →
      RemoveUserFromGroup h g u = h) := by
  refine ⟨?_, ?_, ?_⟩
  · intro hno
    cases hg : lookupA h.groups g with
    | none =>
        simp only [AddUserToGroup, hg]
        simp only [RemoveUserFromGroup, lookupA_insertA_self]
        have hfil : ([u] : List UUID).filter (fun x => x != u) = [] := by simp
        rw [hfil]
        simp only [List.length_nil, gt_iff_lt, lt_self_iff_false, if_false]
        rw [eraseA_insertA_of_lookup_none _ _ _ hg]
    | some ms =>
        obtain ⟨hmem, hne⟩ := hno ms hg
        simp only [AddUserToGroup, hg, if_neg hmem]
        simp only [RemoveUserFromGroup, lookupA_insertA_self]
        have hfil : (ms ++ [u]).filter (fun x => x != u) = ms := by
          rw [List.filter_append, filter_bne_eq_self ms u hmem]
          simp
        rw [hfil]
        rw [if_pos (by simpa [gt_iff_lt, List.length_pos] using hne)]
        rw [insertA_insertA, insertA_self_eq _ _ _ hg]
  · intro ms hg hmem
    simp only [AddUserToGroup, hg, if_pos hmem]
  · intro hno
    cases hg : lookupA h.groups g with
    | none => simp only [RemoveUserFromGroup, hg]
    | some ms =>
        obtain ⟨hmem, hne⟩ := hno ms hg
        simp only [RemoveUserFromGroup, hg]
        rw [filter_bne_eq_self ms u hmem]
        rw [if_pos (by simpa [gt_iff_lt, List.length_pos] using hne)]
        rw [insertA_self_eq _ _ _ hg]

/-- C6 (witness): concrete round trip on a fresh (group, user) pair, an
add of an existing member, and a remove of an absent member. -/
theorem C6_membership_roundtrip_witness :
    RemoveUserFromGroup
        (AddUserToGroup { conns := [], clients := [], groups := [(1, [2])] } 1 3) 1 3 =
      { conns := [], clients := [], groups := [(1, [2])] } ∧
    AddUserToGroup { conns := [], clients := [], groups := [(1, [2])] } 1 2 =
      { conns := [], clients := [], groups := [(1, [2])] } ∧
    RemoveUserFromGroup { conns := [], clients := [], groups := [(1, [2])] } 1 3 =
      { conns := [], clients := [], groups := [(1, [2])] } :=
  ⟨(C6_membership_roundtrip { conns := [], clients := [], groups := [(1, [2])] } 1 3).1
      (by decide),
   (C6_membership_roundtrip { conns := [], clients := [], groups := [(1, [2])] } 1 2).2.1
      [2] rfl (by decide),
   (C6_membership_roundtrip { conns := [], clients := [], groups := [(1, [2])] } 1 3).2.2
      (by decide)⟩

/-- A call to one of the two membership-cache mutators of hub.go. -/
inductive GroupOp where
  | add (g u : UUID)
  | remove (g u : UUID)
deriving DecidableEq, Repr

def applyGroupOp (h : Hub) : GroupOp → Hub
  | .add g u => AddUserToGroup h g u
  | .remove g u => RemoveUserFromGroup h g u

def applyGroupOps (h : Hub) : List GroupOp → Hub
  | [] => h
  | op :: rest => applyGroupOps (applyGroupOp h op) rest

/-- The groups-map invariant: every cached group is non-empty and has no
duplicate members. -/
def GroupsInv (h : Hub) : Prop := ∀ q ∈ h.groups, q.2 ≠ [] ∧ q.2.Nodup

theorem groupsInv_add (h : Hub) (g u : UUID) (hinv : GroupsInv h) :
    GroupsInv (AddUserToGroup h g u) := by
  intro q hq
  cases hg : lookupA h.groups g with
  | some ms =>
      by_cases hu : u ∈ ms
      · simp only [AddUserToGroup, hg] at hq
        rw [if_pos hu] at hq
        exact hinv q hq
      · simp only [AddUserToGroup, hg] at hq
        rw [if_neg hu] at hq
        rcases mem_insertA _ _ _ _ hq with h2 | h2
        · obtain ⟨hms, hnd⟩ := hinv (g, ms) (mem_of_lookupA_eq_some _ _ _ hg)
          rw [h2]
          exact ⟨by simp, nodup_append_singleton ms u hnd hu⟩
        · exact hinv q h2
  | none =>
      simp only [AddUserToGroup, hg] at hq
      rcases mem_insertA _ _ _ _ hq with h2 | h2
      · rw [h2]
        exact ⟨by simp, List.nodup_singleton u⟩
      · exact hinv q h2

theorem groupsInv_remove (h : Hub) (g u : UUID) (hinv : GroupsInv h) :
    GroupsInv (RemoveUserFromGroup h g u) := by
  intro q hq
  cases hg : lookupA h.groups g with
  | some ms =>
      by_cases hlen : (ms.filter (fun x => x != u)).length > 0
      · simp only [RemoveUserFromGroup, hg] at hq
        rw [if_pos hlen] at hq
        rcases mem_insertA _ _ _ _ hq with h2 | h2
        · obtain ⟨hms, hnd⟩ := hinv (g, ms) (mem_of_lookupA_eq_some _ _ _ hg)
          rw [h2]
          refine ⟨?_, hnd.filter _⟩
          intro he
          have he2 : List.filter (fun x => x != u) ms = [] := he
          rw [he2] at hlen
          simp at hlen
        · exact hinv q h2
      · simp only [RemoveUserFromGroup, hg] at hq
        rw [if_neg hlen] at hq
        exact hinv q (mem_eraseA _ _ _ hq)
  | none =>
      simp only [RemoveUserFromGroup, hg] at hq
      exact hinv q hq

theorem groupsInv_applyGroupOps (h : Hub) (ops : List GroupOp)
    (hinv : GroupsInv h) : GroupsInv (applyGroupOps h ops) := by
  induction ops generalizing h with
  | nil => exact hinv
  | cons op rest ih =>
      rw [applyGroupOps]
      apply ih
      cases op with
      | add g u => exact groupsInv_add h g u hinv
      | remove g u => exact groupsInv_remove h g u hinv

/-- C10: in every hub state reachable from `NewHub` by any sequence of
AddUserToGroup / RemoveUserFromGroup calls, every cached group maps to a
non-empty, duplicate-free member list. -/
theorem C10_groups_invariant (ops : List GroupOp) :
    ∀ q ∈ (applyGroupOps NewHub ops).groups, q.2 ≠ [] ∧ q.2.Nodup :=
  groupsInv_applyGroupOps NewHub ops (by intro q hq; cases hq)

/-- C10 (witness): a concrete operation sequence with a duplicate add and a
removal, evaluated to its resulting cache entry. -/
theorem C10_groups_invariant_witness :
    ([2, 3] : List UUID) ≠ [] ∧ ([2, 3] : List UUID).Nodup :=
  C10_groups_invariant
    [GroupOp.add 1 2, GroupOp.add 1 3, GroupOp.add 1 2, GroupOp.add 4 9,
     GroupOp.remove 4 9]
    (1, [2, 3]) (by decide)

/-! ## Claim C5 — group fan-out -/

set_option maxRecDepth 4096 in
/-- C5 (counterexample): a registered group member whose outbound queue is
at capacity receives zero frames (the queue is unchanged and closed) and is
evicted, so "enqueues exactly one frame on the connection of each
currently-registered member" is false at this hub state. -/
theorem C5_counterexample :
    (BroadcastToGroup
        { conns := [(1, { UserID := 7, Username := "a",
                          Send := List.replicate 256 (pongMsg 0), SendCap := 256,
                          SendClosed := false })],
          clients := [(7, 1)], groups := [(4, [7])] } 4
        { type := "new_group_message", GroupID := 4, Content := "hi" }).clients = [] ∧
    lookupA (BroadcastToGroup
        { conns := [(1, { UserID := 7, Username := "a",
                          Send := List.replicate 256 (pongMsg 0), SendCap := 256,
                          SendClosed := false })],
          clients := [(7, 1)], groups := [(4, [7])] } 4
        { type := "new_group_message", GroupID := 4, Content := "hi" }).conns 1 =
      some { UserID := 7, Username := "a",
             Send := List.replicate 256 (pongMsg 0), SendCap := 256,
             SendClosed := true } ∧
    ({ type := "new_group_message", GroupID := 4, Content := "hi" } : Message) ∉
      List.replicate 256 (pongMsg 0) := by
  decide

/-- C5 (amended): in any well-formed hub state (distinct registry keys,
registry coherent with the heap, duplicate-free member list, as in every
reachable state), group fan-out enqueues exactly one frame on the
connection of each currently-registered member whose queue is below
capacity, touches no connection that belongs to no member, and if the
groups cache has no entry for the group ID nothing at all happens (the
authoritative store is not consulted). Registered members at capacity are
evicted instead (C7). -/
theorem C5_group_routing (h : Hub) (g : UUID) (m : Message) :
    (lookupA h.groups g = none → BroadcastToGroup h g m = h) ∧
    (∀ members, lookupA h.groups g = some members → members.Nodup →
      (keysA h.clients).Nodup →
      (∀ p ∈ h.clients, connUserA h.conns p.2 = some p.1) →
      (∀ u cid c, u ∈ members → lookupA h.clients u = some cid →
        lookupA h.conns cid = some c → c.Send.length < c.SendCap →
        lookupA (BroadcastToGroup h g m).conns cid =
          some { c with Send := c.Send ++ [m] } ∧
        lookupA (BroadcastToGroup h g m).clients u = some cid) ∧
      (∀ cid, (∀ u ∈ members, lookupA h.clients u ≠ some cid) →
        lookupA (BroadcastToGroup h g m).conns cid = lookupA h.conns cid) ∧
      (∀ u2, u2 ∉ members →
        lookupA (BroadcastToGroup h g m).clients u2 = lookupA h.clients u2)) := by
  constructor
  · intro hnone
    rw [BroadcastToGroup, hnone]
  · intro members hg hm hk hco
    have hv : ValsInj h.clients := valsInj_of_coherent h.conns h.clients hco
    refine ⟨?_, ?_, ?_⟩
    · intro u cid c hu hcid hc hroom
      constructor
      · rw [BroadcastToGroup, hg]
        have := groupSendAux_conns_hit h.conns h.clients members m u cid c
          hm hk hv hu hcid hc
        rw [if_pos hroom] at this
        simpa using this
      · rw [BroadcastToGroup, hg]
        simpa using
          groupSendAux_clients_keep h.conns h.clients members m u cid c
            hm hk hv hu hcid hc hroom
    · intro cid hnot
      rw [BroadcastToGroup, hg]
      simpa using
        groupSendAux_conns_untouched h.conns h.clients members m cid hm hnot
    · intro u2 hnot
      rw [BroadcastToGroup, hg]
      simpa using
        groupSendAux_clients_preserve h.conns h.clients members m u2 hnot

/-- C5 (witness): group 4 has members 7 and 8; 7 is registered with room on
connection 1, 8 is offline; user 9 (connection 2) is registered but not a
member.  Member 7 gets exactly the one frame, non-member 9's connection is
untouched, and a missing group is a no-op. -/
theorem C5_group_routing_witness :
    lookupA (BroadcastToGroup
        { conns := [(1, mkClient 7 "a"), (2, mkClient 9 "c")],
          clients := [(7, 1), (9, 2)], groups := [(4, [7, 8])] } 4
        { type := "new_group_message", GroupID := 4 }).conns 1 =
      some { mkClient 7 "a" with
             Send := (mkClient 7 "a").Send ++
               [{ type := "new_group_message", GroupID := 4 }] } ∧
    lookupA (BroadcastToGroup
        { conns := [(1, mkClient 7 "a"), (2, mkClient 9 "c")],
          clients := [(7, 1), (9, 2)], groups := [(4, [7, 8])] } 4
        { type := "new_group_message", GroupID := 4 }).conns 2 =
      lookupA ([(1, mkClient 7 "a"), (2, mkClient 9 "c")] :
        List (ClientId × Client)) 2 ∧
    BroadcastToGroup
        { conns := [(1, mkClient 7 "a"), (2, mkClient 9 "c")],
          clients := [(7, 1), (9, 2)], groups := [(4, [7, 8])] } 5
        { type := "new_group_message", GroupID := 5 } =
      { conns := [(1, mkClient 7 "a"), (2, mkClient 9 "c")],
        clients := [(7, 1), (9, 2)], groups := [(4, [7, 8])] } := by
  have hmain := (C5_group_routing
    { conns := [(1, mkClient 7 "a"), (2, mkClient 9 "c")],
      clients := [(7, 1), (9, 2)], groups := [(4, [7, 8])] } 4
    { type := "new_group_message", GroupID := 4 }).2 [7, 8] rfl
    (by decide) (by decide) (by decide)
  have hnone := (C5_group_routing
    { conns := [(1, mkClient 7 "a"), (2, mkClient 9 "c")],
      clients := [(7, 1), (9, 2)], groups := [(4, [7, 8])] } 5
    { type := "new_group_message", GroupID := 5 }).1 (by decide)
  exact ⟨(hmain.1 7 1 (mkClient 7 "a") (by decide) rfl rfl (by decide)).1,
         hmain.2.1 2 (by decide), hnone⟩

/-! ## Claim C7 — backpressure eviction -/

/-- C7: for each of the three enqueue operations (direct send, broadcast,
group fan-out), a recipient whose bounded outbound queue is full is never
blocked on: its queue is closed, it is evicted from the registry, and
every other recipient of the same operation whose queue has room still
receives the frame and keeps its registry entry.  (Non-blocking holds by
construction: each operation is a total function modelling the
`select`/`default` branch.)  Hypotheses: distinct registry keys and
registry/heap coherence, the representation invariants of every reachable
state. -/
theorem C7_backpressure_eviction (h : Hub) (m : Message) (u : UUID)
    (cid : ClientId) (c : Client)
    (hk : (keysA h.clients).Nodup)
    (hco : ∀ p ∈ h.clients, connUserA h.conns p.2 = some p.1)
    (hu : lookupA h.clients u = some cid)
    (hc : lookupA h.conns cid = some c)
    (hfull : ¬c.Send.length < c.SendCap) :
    (lookupA (SendToUser h u m).conns cid = some { c with SendClosed := true } ∧
     lookupA (SendToUser h u m).clients u = none ∧
     (∀ cid2, cid2 ≠ cid →
       lookupA (SendToUser h u m).conns cid2 = lookupA h.conns cid2) ∧
     (∀ u2, u2 ≠ u →
       lookupA (SendToUser h u m).clients u2 = lookupA h.clients u2)) ∧
    (lookupA (BroadcastToAll h m).conns cid = some { c with SendClosed := true } ∧
     lookupA (BroadcastToAll h m).clients u = none ∧
     (∀ u2 cid2 c2, (u2, cid2) ∈ h.clients → u2 ≠ u →
       lookupA h.conns cid2 = some c2 → c2.Send.length < c2.SendCap →
       lookupA (BroadcastToAll h m).conns cid2 =
         some { c2 with Send := c2.Send ++ [m] } ∧
       lookupA (BroadcastToAll h m).clients u2 = some cid2)) ∧
    (∀ g members, lookupA h.groups g = some members → members.Nodup →
     u ∈ members →
     lookupA (BroadcastToGroup h g m).conns cid =
       some { c with SendClosed := true } ∧
     lookupA (BroadcastToGroup h g m).clients u = none ∧
     (∀ u2 cid2 c2, u2 ∈ members → u2 ≠ u →
       lookupA h.clients u2 = some cid2 → lookupA h.conns cid2 = some c2 →
       c2.Send.length < c2.SendCap →
       lookupA (BroadcastToGroup h g m).conns cid2 =
         some { c2 with Send := c2.Send ++ [m] } ∧
       lookupA (BroadcastToGroup h g m).clients u2 = some cid2)) := by
  have hv : ValsInj h.clients := valsInj_of_coherent h.conns h.clients hco
  have hmem : (u, cid) ∈ h.clients := mem_of_lookupA_eq_some _ _ _ hu
  refine ⟨⟨?_, ?_, ?_, ?_⟩, ⟨?_, ?_, ?_⟩, ?_⟩
  · rw [SendToUser, hu]
    simp [hc, hfull, lookupA_insertA_self]
  · rw [SendToUser, hu]
    simp [hc, hfull, lookupA_eraseA_self _ _ hk]
  · intro cid2 hne
    rw [SendToUser, hu]
    simp [hc, hfull, lookupA_insertA_ne _ _ _ _ hne]
  · intro u2 hne
    rw [SendToUser, hu]
    simp [hc, hfull, lookupA_eraseA_ne _ _ _ hne]
  · have := broadcastAux_conns_hit h.conns h.clients m u cid c hk hv hmem hc
    rw [if_neg hfull] at this
    simpa [BroadcastToAll] using this
  · simpa [BroadcastToAll] using
      broadcastAux_clients_drop h.conns h.clients m u cid c hk hv hmem hc hfull
  · intro u2 cid2 c2 hmem2 hne2 hc2 hroom2
    constructor
    · have := broadcastAux_conns_hit h.conns h.clients m u2 cid2 c2 hk hv hmem2 hc2
      rw [if_pos hroom2] at this
      simpa [BroadcastToAll] using this
    · simpa [BroadcastToAll] using
        broadcastAux_clients_keep h.conns h.clients m u2 cid2 c2 hk hv hmem2 hc2 hroom2
  · intro g members hgg hmnd humem
    refine ⟨?_, ?_, ?_⟩
    · rw [BroadcastToGroup, hgg]
      have := groupSendAux_conns_hit h.conns h.clients members m u cid c
        hmnd hk hv humem hu hc
      rw [if_neg hfull] at this
      simpa using this
    · rw [BroadcastToGroup, hgg]
      simpa using
        groupSendAux_clients_drop h.conns h.clients members m u cid c
          hmnd hk hv humem hu hc hfull
    · intro u2 cid2 c2 humem2 hne2 hu2 hc2 hroom2
      constructor
      · rw [BroadcastToGroup, hgg]
        have := groupSendAux_conns_hit h.conns h.clients members m u2 cid2 c2
          hmnd hk hv humem2 hu2 hc2
        rw [if_pos hroom2] at this
        simpa using this
      · rw [BroadcastToGroup, hgg]
        simpa using
          groupSendAux_clients_keep h.conns h.clients members m u2 cid2 c2
            hmnd hk hv humem2 hu2 hc2 hroom2

set_option maxRecDepth 4096 in
/-- C7 (witness): user 7's connection 1 is at capacity, user 8's connection
2 has room, both are members of group 4.  Broadcasting evicts 7, closes
connection 1 without enqueueing, and still delivers exactly one frame to
connection 2; the direct-send and group cases behave likewise. -/
theorem C7_backpressure_eviction_witness :
    lookupA (BroadcastToAll
        { conns := [(1, { UserID := 7, Username := "a",
                          Send := List.replicate 256 (pongMsg 0), SendCap := 256,
                          SendClosed := false }),
                    (2, mkClient 8 "b")],
          clients := [(7, 1), (8, 2)], groups := [(4, [7, 8])] }
        (pongMsg 9)).clients 7 = none ∧
    lookupA (BroadcastToAll
        { conns := [(1, { UserID := 7, Username := "a",
                          Send := List.replicate 256 (pongMsg 0), SendCap := 256,
                          SendClosed := false }),
                    (2, mkClient 8 "b")],
          clients := [(7, 1), (8, 2)], groups := [(4, [7, 8])] }
        (pongMsg 9)).conns 1 =
      some { ({ UserID := 7, Username := "a",
                Send := List.replicate 256 (pongMsg 0), SendCap := 256,
                SendClosed := false } : Client) with SendClosed := true } ∧
    lookupA (BroadcastToAll
        { conns := [(1, { UserID := 7, Username := "a",
                          Send := List.replicate 256 (pongMsg 0), SendCap := 256,
                          SendClosed := false }),
                    (2, mkClient 8 "b")],
          clients := [(7, 1), (8, 2)], groups := [(4, [7, 8])] }
        (pongMsg 9)).conns 2 =
      some { mkClient 8 "b" with Send := (mkClient 8 "b").Send ++ [pongMsg 9] } ∧
    lookupA (BroadcastToAll
        { conns := [(1, { UserID := 7, Username := "a",
                          Send := List.replicate 256 (pongMsg 0), SendCap := 256,
                          SendClosed := false }),
                    (2, mkClient 8 "b")],
          clients := [(7, 1), (8, 2)], groups := [(4, [7, 8])] }
        (pongMsg 9)).clients 8 = some 2 := by
  have hmain := C7_backpressure_eviction
    { conns := [(1, { UserID := 7, Username := "a",
                      Send := List.replicate 256 (pongMsg 0), SendCap := 256,
                      SendClosed := false }),
                (2, mkClient 8 "b")],
      clients := [(7, 1), (8, 2)], groups := [(4, [7, 8])] }
    (pongMsg 9) 7 1
    { UserID := 7, Username := "a",
      Send := List.replicate 256 (pongMsg 0), SendCap := 256,
      SendClosed := false }
    (by decide) (by decide) rfl rfl (by decide)
  have hother := hmain.2.1.2.2 8 2 (mkClient 8 "b") (by decide) (by decide) rfl
    (by decide)
  exact ⟨hmain.2.1.2.1, hmain.2.1.1, hother.1, hother.2⟩

/-! ## Claims C1, C2 — register / unregister lifecycle -/

/-- C1 (counterexample): registering a new connection (id 2) for user 7,
who already has connection 1 registered, leaves the old connection's
object — and hence its outbound queue — entirely untouched: `SendClosed`
is still `false` after registration.  The register case of `Hub.Run` only
overwrites the map entry; it never closes the replaced connection's
channel. -/
theorem C1_counterexample :
    (registerClient
        { conns := [(1, mkClient 7 "old"), (2, mkClient 7 "new")],
          clients := [(7, 1)], groups := [] } 2).clients = [(7, 2)] ∧
    lookupA (registerClient
        { conns := [(1, mkClient 7 "old"), (2, mkClient 7 "new")],
          clients := [(7, 1)], groups := [] } 2).conns 1 =
      some (mkClient 7 "old") ∧
    (mkClient 7 "old").SendClosed = false := by
  decide

/-- C1 (amended): in a well-formed state, registering a new connection for
user U leaves exactly one registry entry for U, mapping to the new
connection (whose queue also receives the `user_joined` broadcast frame,
assuming it has room, as a fresh 256-slot queue does); the replaced old
connection's object is left untouched — in particular its outbound queue
is NOT closed as part of the registration. -/
theorem C1_register_replacement (h : Hub) (u : UUID) (cidOld cidNew : ClientId)
    (cOld cNew : Client)
    (hk : (keysA h.clients).Nodup)
    (hco : ∀ p ∈ h.clients, connUserA h.conns p.2 = some p.1)
    (hold : lookupA h.clients u = some cidOld)
    (hcOld : lookupA h.conns cidOld = some cOld)
    (hcNew : lookupA h.conns cidNew = some cNew)
    (huNew : cNew.UserID = u)
    (hne : cidNew ≠ cidOld)
    (hfresh : ∀ p ∈ h.clients, p.2 ≠ cidNew)
    (hroom : cNew.Send.length < cNew.SendCap) :
    lookupA (registerClient h cidNew).clients u = some cidNew ∧
    countKey (registerClient h cidNew).clients u = 1 ∧
    lookupA (registerClient h cidNew).conns cidOld = some cOld ∧
    lookupA (registerClient h cidNew).conns cidNew =
      some { cNew with Send := cNew.Send ++ [userJoinedMsg cNew] } := by
  subst huNew
  have hv : ValsInj h.clients := valsInj_of_coherent h.conns h.clients hco
  have holdU : cOld.UserID = cNew.UserID := by
    have := hco (cNew.UserID, cidOld) (mem_of_lookupA_eq_some _ _ _ hold)
    rw [connUserA, hcOld] at this
    injection this
  have hk2 : (keysA (insertA h.clients cNew.UserID cidNew)).Nodup :=
    keysA_insertA_nodup _ _ _ hk
  have hv2 : ValsInj (insertA h.clients cNew.UserID cidNew) := by
    intro p hp q hq hpq
    rcases mem_insertA_strong _ _ _ p hk hp with hp2 | hp2 <;>
      rcases mem_insertA_strong _ _ _ q hk hq with hq2 | hq2
    · rw [hp2, hq2]
    · exfalso
      apply hfresh q hq2.1
      rw [← hpq, hp2]
    · exfalso
      apply hfresh p hp2.1
      rw [hpq, hq2]
    · exact hv p hp2.1 q hq2.1 hpq
  have hmemNew : (cNew.UserID, cidNew) ∈ insertA h.clients cNew.UserID cidNew :=
    mem_of_lookupA_eq_some _ _ _ (lookupA_insertA_self _ _ _)
  have hnotOld : ∀ p ∈ insertA h.clients cNew.UserID cidNew, p.2 ≠ cidOld := by
    intro p hp hpc
    rcases mem_insertA_strong _ _ _ p hk hp with hp2 | hp2
    · apply hne
      rw [← hpc, hp2]
    · apply hp2.2
      have := hco p hp2.1
      rw [hpc, connUserA, hcOld] at this
      injection this with this2
      rw [← this2, holdU]
  simp only [registerClient, hcNew]
  refine ⟨?_, ?_, ?_, ?_⟩
  · simpa [BroadcastToAll] using
      broadcastAux_clients_keep h.conns (insertA h.clients cNew.UserID cidNew)
        (userJoinedMsg cNew) cNew.UserID cidNew cNew hk2 hv2 hmemNew hcNew hroom
  · have hle : countKey (broadcastAux h.conns (insertA h.clients cNew.UserID cidNew)
        (userJoinedMsg cNew)).2 cNew.UserID ≤ 1 := by
      calc countKey (broadcastAux h.conns (insertA h.clients cNew.UserID cidNew)
            (userJoinedMsg cNew)).2 cNew.UserID
          ≤ countKey (insertA h.clients cNew.UserID cidNew) cNew.UserID :=
            countKey_le_of_sublist _ _ _ (broadcastAux_clients_sublist _ _ _)
        _ ≤ 1 := countKey_le_one_of_nodup _ _ hk2
    have hge : 1 ≤ countKey (broadcastAux h.conns (insertA h.clients cNew.UserID cidNew)
        (userJoinedMsg cNew)).2 cNew.UserID :=
      countKey_pos_of_lookup _ _ cidNew
        (broadcastAux_clients_keep h.conns (insertA h.clients cNew.UserID cidNew)
          (userJoinedMsg cNew) cNew.UserID cidNew cNew hk2 hv2 hmemNew hcNew hroom)
    simp only [BroadcastToAll]
    omega
  · have := broadcastAux_conns_untouched h.conns (insertA h.clients cNew.UserID cidNew)
      (userJoinedMsg cNew) cidOld hnotOld
    rw [hcOld] at this
    simpa [BroadcastToAll] using this
  · have := broadcastAux_conns_hit h.conns (insertA h.clients cNew.UserID cidNew)
      (userJoinedMsg cNew) cNew.UserID cidNew cNew hk2 hv2 hmemNew hcNew
    rw [if_pos hroom] at this
    simpa [BroadcastToAll] using this

/-- C1 (witness): the concrete reconnect scenario — user 7 has connection 1
registered, then connection 2 registers for the same user. -/
theorem C1_register_replacement_witness :
    lookupA (registerClient
        { conns := [(1, mkClient 7 "old"), (2, mkClient 7 "new")],
          clients := [(7, 1)], groups := [] } 2).clients 7 = some 2 ∧
    countKey (registerClient
        { conns := [(1, mkClient 7 "old"), (2, mkClient 7 "new")],
          clients := [(7, 1)], groups := [] } 2).clients 7 = 1 ∧
    lookupA (registerClient
        { conns := [(1, mkClient 7 "old"), (2, mkClient 7 "new")],
          clients := [(7, 1)], groups := [] } 2).conns 1 =
      some (mkClient 7 "old") :=
  have hmain := C1_register_replacement
    { conns := [(1, mkClient 7 "old"), (2, mkClient 7 "new")],
      clients := [(7, 1)], groups := [] } 7 1 2 (mkClient 7 "old")
    (mkClient 7 "new") (by decide) (by decide) rfl rfl rfl rfl (by decide)
    (by decide) (by decide)
  ⟨hmain.1, hmain.2.1, hmain.2.2.1⟩

/-- C2 (counterexample): unregistering the already-replaced connection 1
(user 7 is now registered on connection 2, bystander user 9 is on
connection 3) is NOT a no-op: the presence check is keyed on the user ID,
so it deletes user 7's current entry — kicking the replacement connection
out of the registry — closes the old connection's queue, and changes
bystander 9's queue by broadcasting a `user_left` frame to it. -/
theorem C2_counterexample :
    unregisterClient
        { conns := [(1, mkClient 7 "old"), (2, mkClient 7 "new"),
                    (3, mkClient 9 "c")],
          clients := [(7, 2), (9, 3)], groups := [] } 1 ≠
      { conns := [(1, mkClient 7 "old"), (2, mkClient 7 "new"),
                  (3, mkClient 9 "c")],
        clients := [(7, 2), (9, 3)], groups := [] } ∧
    (unregisterClient
        { conns := [(1, mkClient 7 "old"), (2, mkClient 7 "new"),
                    (3, mkClient 9 "c")],
          clients := [(7, 2), (9, 3)], groups := [] } 1).clients = [(9, 3)] ∧
    lookupA (unregisterClient
        { conns := [(1, mkClient 7 "old"), (2, mkClient 7 "new"),
                    (3, mkClient 9 "c")],
          clients := [(7, 2), (9, 3)], groups := [] } 1).conns 1 =
      some { mkClient 7 "old" with SendClosed := true } ∧
    lookupA (unregisterClient
        { conns := [(1, mkClient 7 "old"), (2, mkClient 7 "new"),
                    (3, mkClient 9 "c")],
          clients := [(7, 2), (9, 3)], groups := [] } 1).conns 3 =
      some { mkClient 9 "c" with Send := [userLeftMsg (mkClient 7 "old")] } := by
  decide

/-- C2 (amended): Unregister(C) is a no-op exactly when C's user ID has no
registry entry at all.  Whenever the user ID is present — including when
the entry points at a newer replacement connection — the unregister case
deletes that entry, closes C's own queue, and broadcasts `user_left` to
the remaining connections: every other registered connection with room
receives exactly one `user_left` frame and keeps its registry entry. -/
theorem C2_unregister_keyed_by_user (h : Hub) (cid : ClientId) (c : Client)
    (hc : lookupA h.conns cid = some c) :
    (lookupA h.clients c.UserID = none → unregisterClient h cid = h) ∧
    (∀ cid2, lookupA h.clients c.UserID = some cid2 →
      (keysA h.clients).Nodup →
      (∀ p ∈ h.clients, connUserA h.conns p.2 = some p.1) →
      lookupA (unregisterClient h cid).clients c.UserID = none ∧
      lookupA (unregisterClient h cid).conns cid =
        some { c with SendClosed := true } ∧
      (∀ u2 cid3 c3, (u2, cid3) ∈ h.clients → u2 ≠ c.UserID →
        lookupA h.conns cid3 = some c3 → c3.Send.length < c3.SendCap →
        lookupA (unregisterClient h cid).conns cid3 =
          some { c3 with Send := c3.Send ++ [userLeftMsg c] } ∧
        lookupA (unregisterClient h cid).clients u2 = some cid3)) := by
  constructor
  · intro hnone
    simp only [unregisterClient, hc, hnone]
  · intro cid2 hsome hk hco
    have hv : ValsInj h.clients := valsInj_of_coherent h.conns h.clients hco
    have hout : ∀ p ∈ eraseA h.clients c.UserID, p.1 ≠ c.UserID :=
      fun p hp => (mem_eraseA_strong _ _ p hk hp).2
    have hnotc : ∀ p ∈ eraseA h.clients c.UserID, p.2 ≠ cid := by
      intro p hp hpc
      apply (mem_eraseA_strong _ _ p hk hp).2
      have := hco p (mem_eraseA _ _ p hp)
      rw [hpc, connUserA, hc] at this
      injection this with this2
      rw [← this2]
    have hk2 : (keysA (eraseA h.clients c.UserID)).Nodup :=
      keysA_eraseA_nodup _ _ hk
    have hv2 : ValsInj (eraseA h.clients c.UserID) :=
      valsInj_sub _ _ (fun p hp => mem_eraseA _ _ p hp) hv
    refine ⟨?_, ?_, ?_⟩
    · simp only [unregisterClient, hc, hsome]
      simpa [BroadcastToAll] using
        broadcastAux_clients_out
          (insertA h.conns cid { c with SendClosed := true })
          (eraseA h.clients c.UserID) (userLeftMsg c) c.UserID hout
    · simp only [unregisterClient, hc, hsome]
      have := broadcastAux_conns_untouched
        (insertA h.conns cid { c with SendClosed := true })
        (eraseA h.clients c.UserID) (userLeftMsg c) cid hnotc
      rw [lookupA_insertA_self] at this
      simpa [BroadcastToAll] using this
    · intro u2 cid3 c3 hmem2 hne2 hc3 hroom3
      have hmem2e : (u2, cid3) ∈ eraseA h.clients c.UserID :=
        mem_eraseA_of_ne _ _ (u2, cid3) hmem2 hne2
      have hcne : cid3 ≠ cid := hnotc (u2, cid3) hmem2e
      have hc3e : lookupA (insertA h.conns cid { c with SendClosed := true })
          cid3 = some c3 := by
        rw [lookupA_insertA_ne _ _ _ _ hcne]
        exact hc3
      constructor
      · simp only [unregisterClient, hc, hsome]
        have := broadcastAux_conns_hit
          (insertA h.conns cid { c with SendClosed := true })
          (eraseA h.clients c.UserID) (userLeftMsg c) u2 cid3 c3
          hk2 hv2 hmem2e hc3e
        rw [if_pos hroom3] at this
        simpa [BroadcastToAll] using this
      · simp only [unregisterClient, hc, hsome]
        simpa [BroadcastToAll] using
          broadcastAux_clients_keep
            (insertA h.conns cid { c with SendClosed := true })
            (eraseA h.clients c.UserID) (userLeftMsg c) u2 cid3 c3
            hk2 hv2 hmem2e hc3e hroom3

/-- C2 (witness): a genuinely removed connection (user absent from the
registry) is a no-op; the replaced-connection case deletes the entry,
closes the argument connection's queue, and delivers one `user_left`
frame to the remaining bystander connection, which keeps its entry. -/
theorem C2_unregister_keyed_by_user_witness :
    unregisterClient
        { conns := [(1, mkClient 7 "old")], clients := [], groups := [] } 1 =
      { conns := [(1, mkClient 7 "old")], clients := [], groups := [] } ∧
    lookupA (unregisterClient
        { conns := [(1, mkClient 7 "old"), (2, mkClient 7 "new"),
                    (3, mkClient 9 "c")],
          clients := [(7, 2), (9, 3)], groups := [] } 1).clients 7 = none ∧
    lookupA (unregisterClient
        { conns := [(1, mkClient 7 "old"), (2, mkClient 7 "new"),
                    (3, mkClient 9 "c")],
          clients := [(7, 2), (9, 3)], groups := [] } 1).conns 1 =
      some { mkClient 7 "old" with SendClosed := true } ∧
    lookupA (unregisterClient
        { conns := [(1, mkClient 7 "old"), (2, mkClient 7 "new"),
                    (3, mkClient 9 "c")],
          clients := [(7, 2), (9, 3)], groups := [] } 1).conns 3 =
      some { mkClient 9 "c" with
             Send := (mkClient 9 "c").Send ++ [userLeftMsg (mkClient 7 "old")] } ∧
    lookupA (unregisterClient
        { conns := [(1, mkClient 7 "old"), (2, mkClient 7 "new"),
                    (3, mkClient 9 "c")],
          clients := [(7, 2), (9, 3)], groups := [] } 1).clients 9 = some 3 :=
  have hnoop := (C2_unregister_keyed_by_user
    { conns := [(1, mkClient 7 "old")], clients := [], groups := [] } 1
    (mkClient 7 "old") rfl).1 rfl
  have hmain := (C2_unregister_keyed_by_user
    { conns := [(1, mkClient 7 "old"), (2, mkClient 7 "new"),
                (3, mkClient 9 "c")],
      clients := [(7, 2), (9, 3)], groups := [] } 1
    (mkClient 7 "old") rfl).2 2 rfl (by decide) (by decide)
  have hby := hmain.2.2 9 3 (mkClient 9 "c") (by decide) (by decide) rfl
    (by decide)
  ⟨hnoop, hmain.1, hmain.2.1, hby.1, hby.2⟩
